import Mathlib

/-!
Shallow embedding of the draft-event extraction and role-assignment engine of
`scrim_draft_analyzer.py` (class `ScrimDraftAnalyzer`), together with theorems
settling the frozen claims about it.

Conventions of the embedding:
  * Python dicts keyed by participant id (or champion name) are modelled as
    insertion-ordered association lists: assignment to an existing key updates
    the value in place, assignment to a fresh key appends (`insertA`).
  * The external `champion-data.json` affinity table (`self.champion_role_data`)
    is a runtime input of the program, so it is a parameter `roleData` of the
    embedded functions.
  * A line of the input stream is `RawLine`: either it fails JSON decoding
    (`badJson`, skipped by the per-line handler), or it decodes as JSON but not
    as a snapshot record so that field access raises (`malformed`, which the
    outer handler turns into a failure of the whole parse), or it is a
    well-formed snapshot record.
  * Machine integers are `Nat`/`Int`; scores are `Int` (Python ints).
-/

def CHAMPION_NAMES : List (Nat × String) := [
  (1, "Annie"), (2, "Olaf"), (3, "Galio"), (4, "Twisted Fate"), (5, "Xin Zhao"), (6, "Urgot"),
  (7, "LeBlanc"), (8, "Vladimir"), (9, "Fiddlesticks"), (10, "Kayle"), (11, "Master Yi"), (12, "Alistar"),
  (13, "Ryze"), (14, "Sion"), (15, "Sivir"), (16, "Soraka"), (17, "Teemo"), (18, "Tristana"),
  (19, "Warwick"), (20, "Nunu & Willump"), (21, "Miss Fortune"), (22, "Ashe"), (23, "Tryndamere"), (24, "Jax"),
  (25, "Morgana"), (26, "Zilean"), (27, "Singed"), (28, "Evelynn"), (29, "Twitch"), (30, "Karthus"),
  (31, "Cho'Gath"), (32, "Amumu"), (33, "Rammus"), (34, "Anivia"), (35, "Shaco"), (36, "Dr. Mundo"),
  (37, "Sona"), (38, "Kassadin"), (39, "Irelia"), (40, "Janna"), (41, "Gangplank"), (42, "Corki"),
  (43, "Karma"), (44, "Taric"), (45, "Veigar"), (48, "Trundle"), (50, "Swain"), (51, "Caitlyn"),
  (53, "Blitzcrank"), (54, "Malphite"), (55, "Katarina"), (56, "Nocturne"), (57, "Maokai"), (58, "Renekton"),
  (59, "Jarvan IV"), (60, "Elise"), (61, "Orianna"), (62, "Wukong"), (63, "Brand"), (64, "Lee Sin"),
  (67, "Vayne"), (68, "Rumble"), (69, "Cassiopeia"), (72, "Skarner"), (74, "Heimerdinger"), (75, "Nasus"),
  (76, "Nidalee"), (77, "Udyr"), (78, "Poppy"), (79, "Gragas"), (80, "Pantheon"), (81, "Ezreal"),
  (82, "Mordekaiser"), (83, "Yorick"), (84, "Akali"), (85, "Kennen"), (86, "Garen"), (89, "Leona"),
  (90, "Malzahar"), (91, "Talon"), (92, "Riven"), (96, "Kog'Maw"), (98, "Shen"), (99, "Lux"),
  (101, "Xerath"), (102, "Shyvana"), (103, "Ahri"), (104, "Graves"), (105, "Fizz"), (106, "Volibear"),
  (107, "Rengar"), (110, "Varus"), (111, "Nautilus"), (112, "Viktor"), (113, "Sejuani"), (114, "Fiora"),
  (115, "Ziggs"), (117, "Lulu"), (119, "Draven"), (120, "Hecarim"), (121, "Kha'Zix"), (122, "Darius"),
  (126, "Jayce"), (127, "Lissandra"), (131, "Diana"), (133, "Quinn"), (134, "Syndra"), (136, "Aurelion Sol"),
  (141, "Kayn"), (142, "Zoe"), (143, "Zyra"), (145, "Kai'Sa"), (147, "Seraphine"), (150, "Gnar"),
  (154, "Zac"), (157, "Yasuo"), (161, "Vel'Koz"), (163, "Taliyah"), (164, "Camille"), (166, "Akshan"),
  (200, "Bel'Veth"), (201, "Braum"), (202, "Jhin"), (203, "Kindred"), (221, "Zeri"), (222, "Jinx"),
  (223, "Tahm Kench"), (233, "Briar"), (234, "Viego"), (235, "Senna"), (236, "Lucian"), (238, "Zed"),
  (240, "Kled"), (245, "Ekko"), (246, "Qiyana"), (254, "Vi"), (266, "Aatrox"), (267, "Nami"),
  (268, "Azir"), (350, "Yuumi"), (360, "Samira"), (412, "Thresh"), (420, "Illaoi"), (421, "Rek'Sai"),
  (427, "Ivern"), (429, "Kalista"), (432, "Bard"), (497, "Rakan"), (498, "Xayah"), (516, "Ornn"),
  (517, "Sylas"), (518, "Neeko"), (523, "Aphelios"), (526, "Rell"), (555, "Pyke"), (711, "Vex"),
  (777, "Yone"), (799, "Ambessa"), (875, "Sett"), (876, "Lillia"), (887, "Gwen"), (888, "Renata Glasc"),
  (893, "Aurora"), (895, "Nilah"), (897, "K'Sante"), (901, "Smolder"), (902, "Milio"), (910, "Hwei"),
  (950, "Naafiri")
]

def FALLBACK_ROLES : List (Nat × String) := [
  (14, "top"), (36, "top"), (266, "top"), (114, "top"), (92, "top"), (58, "top"),
  (75, "top"), (150, "top"), (83, "top"), (86, "top"), (78, "jungle"), (54, "top"),
  (80, "top"), (98, "top"), (516, "top"), (122, "top"), (240, "top"), (48, "top"),
  (126, "top"), (799, "top"), (56, "jungle"), (104, "jungle"), (121, "jungle"), (64, "jungle"),
  (113, "jungle"), (60, "jungle"), (107, "jungle"), (154, "jungle"), (11, "jungle"), (120, "jungle"),
  (427, "jungle"), (203, "jungle"), (421, "jungle"), (233, "jungle"), (163, "mid"), (99, "mid"),
  (1, "mid"), (103, "mid"), (134, "mid"), (34, "mid"), (61, "mid"), (157, "mid"),
  (238, "mid"), (268, "mid"), (142, "mid"), (127, "mid"), (7, "mid"), (38, "mid"),
  (245, "mid"), (84, "mid"), (131, "mid"), (517, "mid"), (910, "mid"), (893, "mid"),
  (145, "adc"), (523, "adc"), (22, "adc"), (51, "adc"), (81, "adc"), (222, "adc"),
  (21, "adc"), (18, "adc"), (236, "adc"), (119, "adc"), (110, "adc"), (96, "adc"),
  (202, "adc"), (429, "adc"), (498, "adc"), (221, "adc"), (895, "adc"), (901, "adc"),
  (32, "supp"), (117, "supp"), (12, "supp"), (40, "supp"), (16, "supp"), (89, "supp"),
  (412, "supp"), (111, "supp"), (432, "supp"), (267, "supp"), (25, "supp"), (37, "supp"),
  (223, "supp"), (201, "supp"), (143, "supp"), (555, "supp"), (497, "supp"), (526, "supp"),
  (235, "supp"), (350, "supp"), (888, "supp"), (902, "supp")
]

def RENAME_ALIASES : List (String × String) := [
  ("Nunu & Willump", "nunu"),
  ("Renata Glasc", "renata"),
  ("Tahm Kench", "tahmkench"),
  ("Twisted Fate", "twistedfate"),
  ("Xin Zhao", "xinzhao"),
  ("Master Yi", "masteryi"),
  ("Miss Fortune", "missfortune"),
  ("Dr. Mundo", "drmundo"),
  ("Jarvan IV", "jarvaniv"),
  ("Cho'Gath", "chogath"),
  ("Kai'Sa", "kaisa"),
  ("Kha'Zix", "khazix"),
  ("Kog'Maw", "kogmaw"),
  ("Lee Sin", "leesin"),
  ("Bel'Veth", "belveth"),
  ("Rek'Sai", "reksai"),
  ("Vel'Koz", "velkoz"),
  ("K'Sante", "ksante"),
  ("Aurelion Sol", "aurelionsol"),
  ("Wukong", "monkeyking")
]

/-- Insertion-ordered association-list lookup: first binding for the key wins
(Python dict lookup; the tables above and all state maps have unique keys). -/
def lookupA {κ β : Type} [DecidableEq κ] : List (κ × β) → κ → Option β
  | [], _ => none
  | p :: rest, k => if p.1 = k then some p.2 else lookupA rest k

/-- Python dict assignment `d[k] = v`: update the value in place at an existing
key (keeping its position in insertion order), or append a fresh binding. -/
def insertA {κ β : Type} [DecidableEq κ] : List (κ × β) → κ → β → List (κ × β)
  | [], k, v => [(k, v)]
  | p :: rest, k, v => if p.1 = k then (k, v) :: rest else p :: insertA rest k v

/-- Helper scan of `pySplit`: walk the characters keeping the (reversed)
current token, emitting it at each whitespace run or at the end. -/
def py_split_aux : List Char → List Char → List String
  | [], acc => if acc = [] then [] else [String.mk acc.reverse]
  | c :: rest, acc =>
      if c.isWhitespace then
        (if acc = [] then py_split_aux rest []
         else String.mk acc.reverse :: py_split_aux rest [])
      else py_split_aux rest (c :: acc)

/-- Python `str.split()` with no argument: split on whitespace runs, dropping
empty tokens (written on the character list so the kernel can evaluate it). -/
def pySplit (s : String) : List String := py_split_aux s.data []

/-- Python `str.replace(old, "")` for a one-character pattern: drop every
occurrence of the character. -/
def py_remove_char (c : Char) (s : String) : String :=
  String.mk (s.data.filter (fun a => a ≠ c))

/-- Python `str.lower()` (the champion names are ASCII). -/
def py_lower (s : String) : String := String.mk (s.data.map Char.toLower)

/-- Source `get_champion_name`: static table lookup with the placeholder fallback for
an unknown champion id. -/
def get_champion_name (champion_id : Nat) : String :=
  match lookupA CHAMPION_NAMES champion_id with
  | some n => n
  | none => "Unknown_Champion_" ++ toString champion_id

/-- Source `get_champion_role`: the hardcoded champion-id to single-role fallback. -/
def get_champion_role (champion_id : Nat) : String :=
  match lookupA FALLBACK_ROLES champion_id with
  | some r => r
  | none => "unknown"

/-- Champion-name normalization used by `assign_team_roles`: a fixed table of
special cases, then strip apostrophes and spaces and lowercase. -/
def normalize_champion_name (champ_name : String) : String :=
  match lookupA RENAME_ALIASES champ_name with
  | some n => n
  | none => py_lower (py_remove_char ' ' (py_remove_char '\'' champ_name))

/-- The five required roles, in the order they are written in the source. -/
def REQUIRED_ROLES : List String := ["top", "jungle", "mid", "adc", "supp"]

/-- Preference entry for one team member: the ordered role-preference list
from the external affinity table, else the single-role hardcoded fallback,
else the empty list. -/
def build_champion_roles_step (roleData : List (String × List String))
    (cr : List (Nat × List String)) (m : Nat × String × Nat) : List (Nat × List String) :=
  let normalized_name := normalize_champion_name m.2.1
  match lookupA roleData normalized_name with
  | some roles => insertA cr m.1 roles
  | none =>
      let role := get_champion_role m.2.2
      if role ≠ "unknown" then insertA cr m.1 [role] else insertA cr m.1 []

/-- The `champion_roles` map built at the top of `assign_team_roles`, one
entry per team member. -/
def build_champion_roles (roleData : List (String × List String))
    (team_champions : List (Nat × String × Nat)) : List (Nat × List String) :=
  team_champions.foldl (build_champion_roles_step roleData) []

/-- The "conventional slot" hint: participant slots 1/6 are top, 2/7 jungle,
3/8 mid, 4/9 adc, 5/10 supp. -/
def position_match (pid : Nat) (role : String) : Bool :=
  ((pid = 1 ∨ pid = 6) ∧ role = "top") ∨
  ((pid = 2 ∨ pid = 7) ∧ role = "jungle") ∨
  ((pid = 3 ∨ pid = 8) ∧ role = "mid") ∨
  ((pid = 4 ∨ pid = 9) ∧ role = "adc") ∨
  ((pid = 5 ∨ pid = 10) ∧ role = "supp")

/-- Per-member contribution of `calculate_assignment_score`: preference-list
hit at index i gives 10 - 2*i plus a +3 bonus on a conventional-slot match;
a member whose non-empty preference list misses the role gets a flat 1; a
member with no preference data gets 5 on a slot match and 2 otherwise. -/
def member_score (champion_roles : List (Nat × List String)) (pid : Nat)
    (role : String) : Int :=
  match lookupA champion_roles pid with
  | some prefRoles =>
      if prefRoles ≠ [] then
        match prefRoles.findIdx? (fun r => r = role) with
        | some role_index =>
            (10 - (role_index : Int) * 2) + (if position_match pid role then 3 else 0)
        | none => 1
      else if position_match pid role then 5 else 2
  | none => if position_match pid role then 5 else 2

/-- Source `calculate_assignment_score`: sum of the per-member contributions over the
candidate assignment. -/
def calculate_assignment_score (champion_roles : List (Nat × List String))
    (assignment : List (Nat × String)) : Int :=
  assignment.foldl (fun score p => score + member_score champion_roles p.1 p.2) 0

/-- All ways to pick one element out of a list, each with the remaining list,
in positional order (the standard selection helper for permutations). -/
def picks {α : Type} : List α → List (α × List α)
  | [] => []
  | x :: xs => (x, xs) :: (picks xs).map (fun p => (p.1, x :: p.2))

theorem length_of_mem_picks {α : Type} : ∀ (l : List α) (p : α × List α),
    p ∈ picks l → p.2.length + 1 = l.length := by
  intro l
  induction l with
  | nil => intro p h; simp [picks] at h
  | cons x xs ih =>
      intro p h
      simp only [picks, List.mem_cons, List.mem_map] at h
      rcases h with h | ⟨q, hq, rfl⟩
      · subst h; simp
      · simpa using ih q hq

/-- Fuel-driven permutation enumeration (structural recursion, so the kernel
can evaluate it; the wrapper passes the list length as fuel, which always
suffices because each pick removes one element). -/
def py_permutations_fuel {α : Type} : Nat → List α → List (List α)
  | _, [] => [[]]
  | 0, _ :: _ => []
  | fuel + 1, x :: xs =>
      (picks (x :: xs)).flatMap
        (fun p => (py_permutations_fuel fuel p.2).map (fun rest => p.1 :: rest))

/-- Model of `itertools.permutations`: all permutations of a list, emitted in
lexicographic order of the input positions. -/
def py_permutations {α : Type} (l : List α) : List (List α) :=
  py_permutations_fuel l.length l

/-- Python `dict(zip(pids, perm))`: pair the lists positionally (zip truncates
to the shorter) and build a dict from the pairs. -/
def dict_of_zip (pids : List Nat) (roles : List String) : List (Nat × String) :=
  (List.zip pids roles).foldl (fun d p => insertA d p.1 p.2) []

/-- The permutation search of `assign_team_roles`: fold over all 120 role
permutations keeping the first strictly-improving candidate, starting from the
empty assignment with score -1. -/
def best_assignment_fold (champion_roles : List (Nat × List String))
    (participant_ids : List Nat) : (List (Nat × String)) × Int :=
  (py_permutations REQUIRED_ROLES).foldl
    (fun best perm =>
      let assignment := dict_of_zip participant_ids perm
      let score := calculate_assignment_score champion_roles assignment
      if score > best.2 then (assignment, score) else best)
    ([], -1)

/-- The ambiguity post-process of `assign_team_roles`: a member whose non-empty
preference list misses the chosen role is reported with the empty string;
everyone else keeps the chosen role. -/
def final_assignment (champion_roles : List (Nat × List String))
    (best : List (Nat × String)) : List (Nat × String) :=
  best.map (fun p =>
    match lookupA champion_roles p.1 with
    | some prefs =>
        if prefs ≠ [] then (if p.2 ∈ prefs then p else (p.1, "")) else p
    | none => p)

/-- Source `assign_team_roles`: build the preference map, search all role
permutations for the best-scoring assignment, then apply the ambiguity
post-process. -/
def assign_team_roles (roleData : List (String × List String))
    (team_champions : List (Nat × String × Nat)) : List (Nat × String) :=
  let champion_roles := build_champion_roles roleData team_champions
  let participant_ids := team_champions.map (fun m => m.1)
  let best := (best_assignment_fold champion_roles participant_ids).1
  final_assignment champion_roles best

/-- One entry of a snapshot's `bannedChampions` sequence. -/
structure BanObs where
  championID : Nat
  pickTurn : Nat
  teamID : Nat
deriving DecidableEq, Repr

/-- One member entry of a snapshot's `teamOne`/`teamTwo` roster list. -/
structure RosterMember where
  participantID : Nat
  championID : Nat
  pickTurn : Nat
  displayName : String
deriving DecidableEq, Repr

/-- A decoded snapshot record: the fields of one input line that
`extract_draft_from_file` reads.  Optional fields model `dict.get`; a roster
slot is `none` when the key is absent from the line's JSON object.  (The
source also reads `pickTurn` into `current_pick_turn`, which is never used.) -/
structure Snapshot where
  rfc461Schema : Option String
  winningTeam : Option Nat
  gameState : Option String
  rfc460Timestamp : String
  bannedChampions : List BanObs
  teamOne : Option (List RosterMember)
  teamTwo : Option (List RosterMember)
deriving DecidableEq, Repr

/-- A raw input line.  `badJson` fails `json.loads` and is skipped by the
per-line `except json.JSONDecodeError` handler; `malformed` decodes as JSON
but not as a snapshot record, so field access raises and the outer handler
fails the whole parse; `record` is a well-formed snapshot. -/
inductive RawLine
  | badJson
  | malformed
  | record (r : Snapshot)
deriving DecidableEq, Repr

/-- A deduplicated ban action of the draft log. -/
structure BanEvent where
  pickTurn : Nat
  champion : String
  championID : Nat
  team : String
  timestamp : String
  line : Nat
deriving DecidableEq, Repr

/-- A pick action of the draft log. -/
structure PickEvent where
  pickTurn : Nat
  champion : String
  championID : Nat
  player : String
  team : String
  team_key : String
  team_side : String
  participant_id : Nat
  role : String
  timestamp : String
  line : Nat
deriving DecidableEq, Repr

/-- An entry of `draft_events`. -/
inductive DraftEvent
  | ban (b : BanEvent)
  | pick (p : PickEvent)
deriving DecidableEq, Repr

/-- Sort key of the final `draft_events.sort`. -/
def event_pickTurn : DraftEvent → Nat
  | .ban b => b.pickTurn
  | .pick p => p.pickTurn

/-- Stable insertion of an event into a pickTurn-sorted list: the new event
goes after every event with an equal or smaller pickTurn. -/
def insert_event (e : DraftEvent) : List DraftEvent → List DraftEvent
  | [] => [e]
  | f :: rest =>
      if event_pickTurn e < event_pickTurn f then e :: f :: rest
      else f :: insert_event e rest

/-- Python `draft_events.sort(key=lambda x: x['pickTurn'])`: a stable sort by
pickTurn.  `list.sort` is stable, and a stable sort by a key is unique, so
insertion sort (which the kernel can evaluate) models it exactly. -/
def sort_by_pickTurn (events : List DraftEvent) : List DraftEvent :=
  events.foldl (fun acc e => insert_event e acc) []

/-- The mutable locals of `extract_draft_from_file` (the write-only
`team_names` set is omitted; nothing reads it). -/
structure ParseState where
  draft_events : List DraftEvent
  seen_bans : List (Nat × Nat × Nat)
  player_champions : List (Nat × Nat)
  winning_team : Option String
  team_one_name : Option String
  team_two_name : Option String
  team_one_composition : List (Nat × String × Nat)
  team_two_composition : List (Nat × String × Nat)
  team_one_players : List (Nat × String)
  team_two_players : List (Nat × String)
deriving DecidableEq, Repr

/-- The initial parse state. -/
def initState : ParseState :=
  { draft_events := [], seen_bans := [], player_champions := [],
    winning_team := none, team_one_name := none, team_two_name := none,
    team_one_composition := [], team_two_composition := [],
    team_one_players := [], team_two_players := [] }

/-- Side string derived from a ban observation's teamID. -/
def ban_side (teamID : Nat) : String := if teamID = 100 then "Blue" else "Red"

/-- Team-name capture scan: the first roster member whose display name
contains a space contributes its first whitespace token; `display_name.split()`
of an all-whitespace name is empty, so indexing it raises (`error`). -/
def capture_team_name : List RosterMember → Except Unit (Option String)
  | [] => .ok none
  | m :: rest =>
      if ' ' ∈ m.displayName.data then
        match pySplit m.displayName with
        | [] => .error ()
        | tok :: _ => .ok (some tok)
      else capture_team_name rest

/-- Processing of one snapshot's `bannedChampions`: append a Ban action for
each observation whose (championID, pickTurn, teamID) key is new. -/
def process_bans (timestamp : String) (line_num : Nat) (st : ParseState)
    (bans : List BanObs) : ParseState :=
  bans.foldl (fun st ban =>
    let ban_key := (ban.championID, ban.pickTurn, ban.teamID)
    if ban_key ∈ st.seen_bans then st
    else
      { st with
        seen_bans := st.seen_bans ++ [ban_key],
        draft_events := st.draft_events ++ [DraftEvent.ban {
          pickTurn := ban.pickTurn,
          champion := get_champion_name ban.championID,
          championID := ban.championID,
          team := ban_side ban.teamID,
          timestamp := timestamp,
          line := line_num }] }) st

/-- The champion-swap scan: mutate the first Pick action whose `player` equals
the given display name, updating champion, championID, timestamp and line. -/
def update_first_pick (events : List DraftEvent) (displayName champion : String)
    (championID : Nat) (timestamp : String) (line_num : Nat) : List DraftEvent :=
  match events with
  | [] => []
  | DraftEvent.pick p :: rest =>
      if p.player = displayName then
        DraftEvent.pick { p with champion := champion, championID := championID,
                                 timestamp := timestamp, line := line_num } :: rest
      else
        DraftEvent.pick p :: update_first_pick rest displayName champion championID timestamp line_num
  | e :: rest => e :: update_first_pick rest displayName champion championID timestamp line_num

/-- Processing of one roster member inside the picks loop: a first observation
with championID > 0 appends a Pick action and records the composition entry; a
later observation with a different champion is a swap that updates the
composition and mutates the matching Pick action in place. -/
def process_pick_member (team_key team_name team_side : String)
    (teamOneSlot : Bool) (timestamp : String) (line_num : Nat)
    (st : ParseState) (m : RosterMember) : ParseState :=
  if m.championID > 0 then
    match lookupA st.player_champions m.participantID with
    | none =>
        let champion_name := get_champion_name m.championID
        let st' :=
          { st with
            player_champions := insertA st.player_champions m.participantID m.championID,
            draft_events := st.draft_events ++ [DraftEvent.pick {
              pickTurn := m.pickTurn,
              champion := champion_name,
              championID := m.championID,
              player := m.displayName,
              team := team_name,
              team_key := team_key,
              team_side := team_side,
              participant_id := m.participantID,
              role := "TBD",
              timestamp := timestamp,
              line := line_num }] }
        if teamOneSlot then
          { st' with
            team_one_composition := insertA st'.team_one_composition m.participantID (champion_name, m.championID),
            team_one_players := insertA st'.team_one_players m.participantID m.displayName }
        else
          { st' with
            team_two_composition := insertA st'.team_two_composition m.participantID (champion_name, m.championID),
            team_two_players := insertA st'.team_two_players m.participantID m.displayName }
    | some prev =>
        if prev ≠ m.championID then
          let champion_name := get_champion_name m.championID
          let st' :=
            { st with
              player_champions := insertA st.player_champions m.participantID m.championID }
          let st'' :=
            if teamOneSlot then
              { st' with team_one_composition := insertA st'.team_one_composition m.participantID (champion_name, m.championID) }
            else
              { st' with team_two_composition := insertA st'.team_two_composition m.participantID (champion_name, m.championID) }
          { st'' with
            draft_events := update_first_pick st''.draft_events m.displayName champion_name m.championID timestamp line_num }
        else st
  else st

/-- Team-name capture for one roster slot of one record: when the slot is
present with a non-empty member list and no name is set yet, scan it with
`capture_team_name` (an all-whitespace space-containing display name raises);
otherwise keep the current name.  An absent slot or an empty list never
captures, and a set name is never overwritten. -/
def capture_slot_name (current : Option String)
    (slot : Option (List RosterMember)) : Except Unit (Option String) :=
  match slot with
  | some members =>
      if members ≠ [] ∧ current = none then
        match capture_team_name members with
        | .error _ => .error ()
        | .ok none => .ok current
        | .ok (some n) => .ok (some n)
      else .ok current
  | none => .ok current

/-- Processing of one decoded snapshot record, in source order: the game_end
branch, the draft-phase filter, team-name capture for both slots, new bans,
then picks for each roster slot (the per-slot team name is read after any
capture in the same record, the slot fixes the side — teamOne is Blue, teamTwo
is Red — and an absent slot contributes no members). -/
def process_record (st : ParseState) (line_num : Nat) (r : Snapshot) :
    Except Unit ParseState :=
  if r.rfc461Schema = some "game_end" then
    .ok { st with winning_team :=
      if r.winningTeam = some 100 then some "teamOne"
      else if r.winningTeam = some 200 then some "teamTwo"
      else st.winning_team }
  else if ¬ (r.gameState = some "CHAMP_SELECT" ∨ r.gameState = some "PRE_CHAMP_SELECT") then
    .ok st
  else
    match capture_slot_name st.team_one_name r.teamOne with
    | .error e => .error e
    | .ok n1 =>
        match capture_slot_name st.team_two_name r.teamTwo with
        | .error e => .error e
        | .ok n2 =>
            let timestamp := r.rfc460Timestamp
            let st := { st with team_one_name := n1, team_two_name := n2 }
            let st := process_bans timestamp line_num st r.bannedChampions
            let st := (r.teamOne.getD []).foldl
              (process_pick_member "teamOne" (st.team_one_name.getD "TeamOne") "Blue" true
                timestamp line_num) st
            let st := (r.teamTwo.getD []).foldl
              (process_pick_member "teamTwo" (st.team_two_name.getD "TeamTwo") "Red" false
                timestamp line_num) st
            .ok st

/-- Processing of one raw line. -/
def process_line (st : ParseState) (line_num : Nat) : RawLine → Except Unit ParseState
  | .badJson => .ok st
  | .malformed => .error ()
  | .record r => process_record st line_num r

/-- The main loop over the stream, with 1-based line numbers. -/
def run_lines (st : ParseState) (line_num : Nat) : List RawLine → Except Unit ParseState
  | [] => .ok st
  | l :: rest =>
      match process_line st line_num l with
      | .error e => .error e
      | .ok st' => run_lines st' (line_num + 1) rest

/-- Role backfill after the stream: every Pick action of the given roster slot
whose participant has an assigned role gets that role written in. -/
def backfill_roles (roles : List (Nat × String)) (team_key : String)
    (events : List DraftEvent) : List DraftEvent :=
  events.map (fun e =>
    match e with
    | .pick p =>
        if p.team_key = team_key then
          match lookupA roles p.participant_id with
          | some role => .pick { p with role := role }
          | none => .pick p
        else .pick p
    | e => e)

/-- One per-team block of the output record. -/
structure TeamResult where
  name : String
  picks : List (String × String × String)
deriving DecidableEq, Repr

/-- The `ParsedMatch` dictionary returned on success. -/
structure DraftResult where
  events : List DraftEvent
  blue_bans : List String
  red_bans : List String
  team1 : TeamResult
  team2 : TeamResult
  winner : Option String
deriving DecidableEq, Repr

/-- Source `extract_draft_from_file`: run the stream loop (any line whose processing
raises other than a JSON-decode failure turns the whole parse into `none`),
assign roles per non-empty team composition, sort the log by pickTurn, and
assemble the result record. -/
def extract_draft_from_file (roleData : List (String × List String))
    (lines : List RawLine) : Option DraftResult :=
  match run_lines initState 1 lines with
  | .error _ => none
  | .ok st =>
    let events := st.draft_events
    let events :=
      if st.team_one_composition ≠ [] then
        backfill_roles
          (assign_team_roles roleData (st.team_one_composition.map (fun p => (p.1, p.2.1, p.2.2))))
          "teamOne" events
      else events
    let events :=
      if st.team_two_composition ≠ [] then
        backfill_roles
          (assign_team_roles roleData (st.team_two_composition.map (fun p => (p.1, p.2.1, p.2.2))))
          "teamTwo" events
      else events
    let events := sort_by_pickTurn events
    let winner : Option String :=
      match st.winning_team with
      | some wt =>
          if wt = "teamOne" then some (st.team_one_name.getD "Blue Team")
          else if wt = "teamTwo" then some (st.team_two_name.getD "Red Team")
          else none
      | none => none
    some {
      events := events,
      blue_bans := events.filterMap (fun e =>
        match e with
        | .ban b => if b.team = "Blue" then some b.champion else none
        | _ => none),
      red_bans := events.filterMap (fun e =>
        match e with
        | .ban b => if b.team = "Red" then some b.champion else none
        | _ => none),
      team1 := { name := st.team_one_name.getD "Team1",
                 picks := events.filterMap (fun e =>
                   match e with
                   | .pick p => if p.team_key = "teamOne" then some (p.player, p.champion, p.role) else none
                   | _ => none) },
      team2 := { name := st.team_two_name.getD "Team2",
                 picks := events.filterMap (fun e =>
                   match e with
                   | .pick p => if p.team_key = "teamTwo" then some (p.player, p.champion, p.role) else none
                   | _ => none) },
      winner := winner }

/-! Association-list lemmas. -/

theorem lookupA_insertA_self {κ β : Type} [DecidableEq κ] (d : List (κ × β)) (k : κ) (v : β) :
    lookupA (insertA d k v) k = some v := by
  induction d with
  | nil => simp [insertA, lookupA]
  | cons p rest ih =>
      by_cases h : p.1 = k
      · simp [insertA, h, lookupA]
      · simp [insertA, h, lookupA, ih]

theorem lookupA_insertA_ne {κ β : Type} [DecidableEq κ] (d : List (κ × β)) (k : κ) (v : β)
    (k' : κ) (h : k' ≠ k) : lookupA (insertA d k v) k' = lookupA d k' := by
  have hk : ¬ k = k' := fun e => h e.symm
  induction d with
  | nil => simp [insertA, lookupA, hk]
  | cons p rest ih =>
      by_cases hp : p.1 = k
      · subst hp
        simp [insertA, lookupA, hk]
      · have e1 : insertA (p :: rest) k v = p :: insertA rest k v := by
          simp [insertA, hp]
        by_cases hp' : p.1 = k'
        · rw [e1]
          simp [lookupA, hp']
        · rw [e1]
          simp [lookupA, hp', ih]

theorem lookupA_mem {κ β : Type} [DecidableEq κ] (d : List (κ × β)) (k : κ) (v : β)
    (h : lookupA d k = some v) : (k, v) ∈ d := by
  induction d with
  | nil => simp [lookupA] at h
  | cons p rest ih =>
      simp only [lookupA] at h
      by_cases hp : p.1 = k
      · rw [if_pos hp] at h
        injection h with hv
        have hpk : p = (k, v) := by
          calc p = (p.1, p.2) := by simp
            _ = (k, v) := by rw [hp, hv]
        rw [← hpk]
        exact List.mem_cons_self _ _
      · rw [if_neg hp] at h
        exact List.mem_cons_of_mem _ (ih h)

theorem lookupA_eq_none_of_not_mem {κ β : Type} [DecidableEq κ] (d : List (κ × β)) (k : κ)
    (h : k ∉ d.map Prod.fst) : lookupA d k = none := by
  induction d with
  | nil => rfl
  | cons p rest ih =>
      simp only [List.map_cons, List.mem_cons, not_or] at h
      have h1 : ¬ p.1 = k := fun e => h.1 e.symm
      simp [lookupA, h1, ih h.2]

theorem lookupA_of_mem_nodup {κ β : Type} [DecidableEq κ] (d : List (κ × β)) (k : κ) (v : β)
    (hd : (d.map Prod.fst).Nodup) (h : (k, v) ∈ d) : lookupA d k = some v := by
  induction d with
  | nil => simp at h
  | cons p rest ih =>
      simp only [List.map_cons, List.nodup_cons] at hd
      rcases List.mem_cons.mp h with h | h
      · subst h
        simp [lookupA]
      · have hk : p.1 ≠ k := by
          intro e
          exact hd.1 (e ▸ (List.mem_map.mpr ⟨(k, v), h, rfl⟩))
        simp [lookupA, hk, ih hd.2 h]

theorem mem_insertA {κ β : Type} [DecidableEq κ] (d : List (κ × β)) (k : κ) (v : β)
    (q : κ × β) (h : q ∈ insertA d k v) : q ∈ d ∨ q = (k, v) := by
  induction d with
  | nil => simp [insertA] at h; right; exact h
  | cons p rest ih =>
      by_cases hp : p.1 = k
      · simp only [insertA, hp, if_pos] at h
        rcases List.mem_cons.mp h with h | h
        · right; exact h
        · left; exact List.mem_cons_of_mem _ h
      · simp only [insertA, hp, if_neg, not_false_iff] at h
        rcases List.mem_cons.mp h with h | h
        · left; exact h ▸ List.mem_cons_self _ _
        · rcases ih h with h | h
          · left; exact List.mem_cons_of_mem _ h
          · right; exact h

theorem insertA_of_not_mem {κ β : Type} [DecidableEq κ] (d : List (κ × β)) (k : κ) (v : β)
    (h : k ∉ d.map Prod.fst) : insertA d k v = d ++ [(k, v)] := by
  induction d with
  | nil => rfl
  | cons p rest ih =>
      simp only [List.map_cons, List.mem_cons, not_or] at h
      have h1 : ¬ p.1 = k := fun e => h.1 e.symm
      simp [insertA, h1, ih h.2]

theorem foldl_insertA_eq_append (pairs acc : List (Nat × String))
    (hn : (pairs.map Prod.fst).Nodup)
    (hd : ∀ k ∈ pairs.map Prod.fst, k ∉ acc.map Prod.fst) :
    pairs.foldl (fun d p => insertA d p.1 p.2) acc = acc ++ pairs := by
  induction pairs generalizing acc with
  | nil => simp
  | cons p rest ih =>
      simp only [List.map_cons, List.nodup_cons] at hn
      have hp : p.1 ∉ acc.map Prod.fst := hd p.1 (by simp)
      have step : insertA acc p.1 p.2 = acc ++ [(p.1, p.2)] := insertA_of_not_mem acc p.1 p.2 hp
      have hd' : ∀ k ∈ rest.map Prod.fst, k ∉ (acc ++ [(p.1, p.2)]).map Prod.fst := by
        intro k hk
        simp only [List.map_append, List.mem_append, List.map_cons, List.map_nil,
          List.mem_singleton, not_or]
        refine ⟨hd k (by simp [hk]), ?_⟩
        intro e
        exact hn.1 (e ▸ hk)
      calc (p :: rest).foldl (fun d q => insertA d q.1 q.2) acc
          = rest.foldl (fun d q => insertA d q.1 q.2) (insertA acc p.1 p.2) := rfl
        _ = (acc ++ [(p.1, p.2)]) ++ rest := by rw [step, ih (acc ++ [(p.1, p.2)]) hn.2 hd']
        _ = acc ++ p :: rest := by simp

/-! Zip and permutation lemmas. -/

theorem map_fst_zip_eq_take {α β : Type} :
    ∀ (l1 : List α) (l2 : List β), (l1.zip l2).map Prod.fst = l1.take l2.length := by
  intro l1
  induction l1 with
  | nil => intro l2; simp
  | cons x xs ih =>
      intro l2
      cases l2 with
      | nil => simp
      | cons y ys => simp [ih ys]

theorem map_snd_zip_eq_take {α β : Type} :
    ∀ (l1 : List α) (l2 : List β), (l1.zip l2).map Prod.snd = l2.take l1.length := by
  intro l1
  induction l1 with
  | nil => intro l2; simp
  | cons x xs ih =>
      intro l2
      cases l2 with
      | nil => simp
      | cons y ys => simp [ih ys]

theorem dict_of_zip_eq_zip (pids : List Nat) (roles : List String) (h : pids.Nodup) :
    dict_of_zip pids roles = pids.zip roles := by
  have hkeys : ((pids.zip roles).map Prod.fst).Nodup := by
    rw [map_fst_zip_eq_take]
    exact (List.take_sublist _ _).nodup h
  have := foldl_insertA_eq_append (pids.zip roles) [] hkeys (by simp)
  simpa [dict_of_zip] using this

theorem perm_of_mem_picks {α : Type} :
    ∀ (l : List α) (p : α × List α), p ∈ picks l → (p.1 :: p.2).Perm l := by
  intro l
  induction l with
  | nil => intro p h; simp [picks] at h
  | cons x xs ih =>
      intro p h
      simp only [picks, List.mem_cons, List.mem_map] at h
      rcases h with h | ⟨q, hq, rfl⟩
      · subst h; exact List.Perm.refl _
      · have hqp := ih q hq
        exact (List.Perm.swap x q.1 q.2).trans ((List.perm_cons x).mpr hqp)

theorem mem_py_permutations_fuel_perm {α : Type} :
    ∀ (fuel : Nat) (l : List α), l.length ≤ fuel →
      ∀ p ∈ py_permutations_fuel fuel l, p.Perm l := by
  intro fuel
  induction fuel with
  | zero =>
      intro l hl p hp
      have hnil : l = [] := List.length_eq_zero.mp (Nat.le_zero.mp hl)
      subst hnil
      simp [py_permutations_fuel] at hp
      subst hp
      exact List.Perm.refl _
  | succ fuel ih =>
      intro l hl p hp
      cases l with
      | nil =>
          simp [py_permutations_fuel] at hp
          subst hp
          exact List.Perm.refl _
      | cons x xs =>
          rw [py_permutations_fuel] at hp
          simp only [List.mem_flatMap, List.mem_map] at hp
          obtain ⟨q, hq, rest, hrest, rfl⟩ := hp
          have hlen : q.2.length + 1 = (x :: xs).length := length_of_mem_picks _ _ hq
          have hle : q.2.length ≤ fuel := by
            simp only [List.length_cons] at hlen hl
            omega
          have h1 : rest.Perm q.2 := ih q.2 hle rest hrest
          have h2 : (q.1 :: q.2).Perm (x :: xs) := perm_of_mem_picks _ _ hq
          exact ((List.perm_cons q.1).mpr h1).trans h2

theorem mem_py_permutations_perm {α : Type} (l : List α) (p : List α)
    (hp : p ∈ py_permutations l) : p.Perm l :=
  mem_py_permutations_fuel_perm l.length l (le_refl _) p hp

theorem py_permutations_fuel_ne_nil {α : Type} :
    ∀ (fuel : Nat) (l : List α), l.length ≤ fuel → py_permutations_fuel fuel l ≠ [] := by
  intro fuel
  induction fuel with
  | zero =>
      intro l hl
      have hnil : l = [] := List.length_eq_zero.mp (Nat.le_zero.mp hl)
      subst hnil
      simp [py_permutations_fuel]
  | succ fuel ih =>
      intro l hl
      cases l with
      | nil => simp [py_permutations_fuel]
      | cons x xs =>
          rw [py_permutations_fuel]
          intro hcon
          have hmem : ((x, xs) : α × List α) ∈ picks (x :: xs) := by
            simp [picks]
          have hrec : py_permutations_fuel fuel xs ≠ [] := by
            apply ih
            simp only [List.length_cons] at hl
            omega
          obtain ⟨r, hr⟩ := List.exists_mem_of_ne_nil _ hrec
          have hmm : (x :: r) ∈ (picks (x :: xs)).flatMap
              (fun p => (py_permutations_fuel fuel p.2).map (fun rest => p.1 :: rest)) := by
            apply List.mem_flatMap.mpr
            exact ⟨(x, xs), hmem, List.mem_map.mpr ⟨r, hr, rfl⟩⟩
          rw [hcon] at hmm
          simp at hmm

theorem py_permutations_ne_nil {α : Type} (l : List α) : py_permutations l ≠ [] :=
  py_permutations_fuel_ne_nil l.length l (le_refl _)

/-! Lemmas about the strict-improvement selection fold. -/

/-- Shape of the permutation-search loop: fold the candidate list keeping the
first strictly-improving (candidate, score) pair. -/
def select_best {α β : Type} (g : α → β) (f : β → Int) (init : β × Int)
    (l : List α) : β × Int :=
  l.foldl (fun best x =>
    let assignment := g x
    let score := f assignment
    if score > best.2 then (assignment, score) else best) init

theorem select_best_of_all_le {α β : Type} (g : α → β) (f : β → Int) :
    ∀ (l : List α) (init : β × Int), (∀ x ∈ l, f (g x) ≤ init.2) →
      select_best g f init l = init := by
  intro l
  induction l with
  | nil => intro init h; rfl
  | cons z rest ih =>
      intro init h
      have hz : f (g z) ≤ init.2 := h z (by simp)
      have step : select_best g f init (z :: rest) = select_best g f init rest := by
        simp only [select_best, List.foldl_cons]
        congr 1
        simp [not_lt.mpr hz]
      rw [step]
      exact ih init (fun x hx => h x (by simp [hx]))

theorem select_best_found {α β : Type} (g : α → β) (f : β → Int) :
    ∀ (l : List α) (init : β × Int), (∃ x ∈ l, init.2 < f (g x)) →
      ∃ l1 x l2, l = l1 ++ x :: l2 ∧
        (select_best g f init l).1 = g x ∧
        (select_best g f init l).2 = f (g x) ∧
        (∀ y ∈ l1, f (g y) < f (g x)) ∧
        (∀ y ∈ l, f (g y) ≤ f (g x)) := by
  intro l
  induction l with
  | nil => intro init h; simp at h
  | cons z rest ih =>
      intro init h
      by_cases hz : init.2 < f (g z)
      · have step : select_best g f init (z :: rest) = select_best g f (g z, f (g z)) rest := by
          simp [select_best, List.foldl_cons, hz]
        by_cases hrest : ∃ x ∈ rest, f (g z) < f (g x)
        · obtain ⟨l1, x, l2, hdec, h1, h2, h3, h4⟩ := ih (g z, f (g z)) hrest
          refine ⟨z :: l1, x, l2, by simp [hdec], by rw [step]; exact h1, by rw [step]; exact h2, ?_, ?_⟩
          · intro y hy
            rcases List.mem_cons.mp hy with hy | hy
            · subst hy
              obtain ⟨x0, hx0, hx0lt⟩ := hrest
              exact lt_of_lt_of_le hx0lt (h4 x0 hx0)
            · exact h3 y hy
          · intro y hy
            rcases List.mem_cons.mp hy with hy | hy
            · subst hy
              obtain ⟨x0, hx0, hx0lt⟩ := hrest
              exact le_of_lt (lt_of_lt_of_le hx0lt (h4 x0 hx0))
            · exact h4 y hy
        · push_neg at hrest
          have hstay : select_best g f (g z, f (g z)) rest = (g z, f (g z)) :=
            select_best_of_all_le g f rest (g z, f (g z)) hrest
          refine ⟨[], z, rest, by simp, ?_, ?_, by simp, ?_⟩
          · rw [step, hstay]
          · rw [step, hstay]
          · intro y hy
            rcases List.mem_cons.mp hy with hy | hy
            · subst hy; exact le_refl _
            · exact hrest y hy
      · have step : select_best g f init (z :: rest) = select_best g f init rest := by
          simp only [select_best, List.foldl_cons]
          congr 1
          simp [hz]
        have hmem : ∃ x ∈ rest, init.2 < f (g x) := by
          obtain ⟨x0, hx0, hlt⟩ := h
          rcases List.mem_cons.mp hx0 with hx0 | hx0
          · subst hx0; exact absurd hlt hz
          · exact ⟨x0, hx0, hlt⟩
        obtain ⟨l1, x, l2, hdec, h1, h2, h3, h4⟩ := ih init hmem
        have hinitx : init.2 < f (g x) := by
          obtain ⟨x0, hx0, hlt⟩ := hmem
          exact lt_of_lt_of_le hlt (h4 x0 hx0)
        have hzx : f (g z) < f (g x) := lt_of_le_of_lt (not_lt.mp hz) hinitx
        refine ⟨z :: l1, x, l2, by simp [hdec], by rw [step]; exact h1, by rw [step]; exact h2, ?_, ?_⟩
        · intro y hy
          rcases List.mem_cons.mp hy with hy | hy
          · subst hy; exact hzx
          · exact h3 y hy
        · intro y hy
          rcases List.mem_cons.mp hy with hy | hy
          · subst hy; exact le_of_lt hzx
          · exact h4 y hy

/-! Score bounds and facts about the permutation search. -/

theorem findIdx?_lt_length_aux {α : Type} (p : α → Bool) :
    ∀ (l : List α) (s i : Nat), List.findIdx? p l s = some i → i < s + l.length := by
  intro l
  induction l with
  | nil => intro s i h; simp [List.findIdx?] at h
  | cons x xs ih =>
      intro s i h
      rw [List.findIdx?] at h
      by_cases hp : p x = true
      · rw [if_pos hp] at h
        injection h with h0
        simp only [List.length_cons]
        omega
      · rw [if_neg hp] at h
        have := ih (s + 1) i h
        simp only [List.length_cons]
        omega

theorem findIdx?_lt_length {α : Type} (p : α → Bool) (l : List α) (i : Nat)
    (h : l.findIdx? p = some i) : i < l.length := by
  have := findIdx?_lt_length_aux p l 0 i h
  omega

theorem member_score_none (champion_roles : List (Nat × List String)) (pid : Nat)
    (role : String) (h : lookupA champion_roles pid = none) :
    member_score champion_roles pid role = if position_match pid role then 5 else 2 := by
  rw [member_score, h]

theorem member_score_some (champion_roles : List (Nat × List String)) (pid : Nat)
    (role : String) (prefs : List String) (h : lookupA champion_roles pid = some prefs) :
    member_score champion_roles pid role =
      if prefs ≠ [] then
        match prefs.findIdx? (fun r => r = role) with
        | some role_index =>
            (10 - (role_index : Int) * 2) + (if position_match pid role then 3 else 0)
        | none => 1
      else if position_match pid role then 5 else 2 := by
  rw [member_score, h]

theorem member_score_ge_one (champion_roles : List (Nat × List String)) (pid : Nat)
    (role : String) (h : ∀ q ∈ champion_roles, (q.2).length ≤ 5) :
    1 ≤ member_score champion_roles pid role := by
  cases hl : lookupA champion_roles pid with
  | none =>
      rw [member_score_none _ _ _ hl]
      split <;> omega
  | some prefs =>
      rw [member_score_some _ _ _ _ hl]
      by_cases hne : prefs ≠ []
      · rw [if_pos hne]
        cases hidx : prefs.findIdx? (fun r => r = role) with
        | none => simp [hidx]
        | some i =>
            have hi : i < prefs.length := findIdx?_lt_length _ prefs i hidx
            have hlen : prefs.length ≤ 5 := h (pid, prefs) (lookupA_mem _ _ _ hl)
            have hi4 : (i : Int) ≤ 4 := by
              have hi4n : i ≤ 4 := by omega
              exact_mod_cast hi4n
            have hred : (match some i with
                | some role_index =>
                    (10 - (role_index : Int) * 2) + (if position_match pid role then 3 else 0)
                | none => (1 : Int)) =
                (10 - (i : Int) * 2) + (if position_match pid role then 3 else 0) := rfl
            rw [hred]
            split <;> omega
      · rw [if_neg hne]
        split <;> omega

theorem calculate_assignment_score_eq_sum (champion_roles : List (Nat × List String)) :
    ∀ (assignment : List (Nat × String)) (c : Int),
      assignment.foldl (fun score p => score + member_score champion_roles p.1 p.2) c =
        c + (assignment.map (fun p => member_score champion_roles p.1 p.2)).sum := by
  intro assignment
  induction assignment with
  | nil => intro c; simp
  | cons p rest ih =>
      intro c
      simp only [List.foldl_cons, List.map_cons, List.sum_cons]
      rw [ih]
      ring

theorem calculate_assignment_score_nonneg (champion_roles : List (Nat × List String))
    (assignment : List (Nat × String))
    (h : ∀ q ∈ champion_roles, (q.2).length ≤ 5) :
    0 ≤ calculate_assignment_score champion_roles assignment := by
  have he : calculate_assignment_score champion_roles assignment =
      (assignment.map (fun p => member_score champion_roles p.1 p.2)).sum :=
    by simpa [calculate_assignment_score] using
      calculate_assignment_score_eq_sum champion_roles assignment 0
  rw [he]
  apply List.sum_nonneg
  intro x hx
  obtain ⟨p, _, rfl⟩ := List.mem_map.mp hx
  exact le_trans (by omega) (member_score_ge_one champion_roles p.1 p.2 h)

theorem build_champion_roles_step_bounded (roleData : List (String × List String))
    (cr : List (Nat × List String)) (m : Nat × String × Nat)
    (h : ∀ q ∈ roleData, (q.2).length ≤ 5) (h0 : ∀ q ∈ cr, (q.2).length ≤ 5) :
    ∀ q ∈ build_champion_roles_step roleData cr m, (q.2).length ≤ 5 := by
  intro q hq
  rw [build_champion_roles_step] at hq
  cases hl : lookupA roleData (normalize_champion_name m.2.1) with
  | some roles =>
      rw [hl] at hq
      rcases mem_insertA _ _ _ _ hq with hm | hm
      · exact h0 q hm
      · subst hm
        exact h (normalize_champion_name m.2.1, roles) (lookupA_mem _ _ _ hl)
  | none =>
      rw [hl] at hq
      dsimp only at hq
      by_cases hr : get_champion_role m.2.2 ≠ "unknown"
      · rw [if_pos hr] at hq
        rcases mem_insertA _ _ _ _ hq with hm | hm
        · exact h0 q hm
        · subst hm; simp
      · rw [if_neg hr] at hq
        rcases mem_insertA _ _ _ _ hq with hm | hm
        · exact h0 q hm
        · subst hm; simp

theorem build_champion_roles_bounded (roleData : List (String × List String))
    (team_champions : List (Nat × String × Nat))
    (h : ∀ q ∈ roleData, (q.2).length ≤ 5) :
    ∀ q ∈ build_champion_roles roleData team_champions, (q.2).length ≤ 5 := by
  rw [build_champion_roles]
  suffices hgen : ∀ (team : List (Nat × String × Nat)) (cr0 : List (Nat × List String)),
      (∀ q ∈ cr0, (q.2).length ≤ 5) →
      ∀ q ∈ team.foldl (build_champion_roles_step roleData) cr0, (q.2).length ≤ 5 by
    exact hgen team_champions [] (by simp)
  intro team
  induction team with
  | nil => intro cr0 h0 q hq; exact h0 q hq
  | cons m rest ih =>
      intro cr0 h0 q hq
      simp only [List.foldl_cons] at hq
      exact ih _ (build_champion_roles_step_bounded roleData cr0 m h h0) q hq

theorem best_assignment_fold_eq (champion_roles : List (Nat × List String)) (pids : List Nat) :
    best_assignment_fold champion_roles pids =
      select_best (dict_of_zip pids) (calculate_assignment_score champion_roles)
        ([], -1) (py_permutations REQUIRED_ROLES) := rfl

theorem best_assignment_fold_spec (champion_roles : List (Nat × List String)) (pids : List Nat)
    (h : ∀ q ∈ champion_roles, (q.2).length ≤ 5) :
    ∃ l1 perm l2, py_permutations REQUIRED_ROLES = l1 ++ perm :: l2 ∧
      (best_assignment_fold champion_roles pids).1 = dict_of_zip pids perm ∧
      (best_assignment_fold champion_roles pids).2 =
        calculate_assignment_score champion_roles (dict_of_zip pids perm) ∧
      (∀ q ∈ l1, calculate_assignment_score champion_roles (dict_of_zip pids q) <
        calculate_assignment_score champion_roles (dict_of_zip pids perm)) ∧
      (∀ q ∈ py_permutations REQUIRED_ROLES,
        calculate_assignment_score champion_roles (dict_of_zip pids q) ≤
          calculate_assignment_score champion_roles (dict_of_zip pids perm)) := by
  have hne : py_permutations REQUIRED_ROLES ≠ [] :=
    py_permutations_ne_nil REQUIRED_ROLES
  obtain ⟨p0, hp0⟩ := List.exists_mem_of_ne_nil _ hne
  have hex : ∃ x ∈ py_permutations REQUIRED_ROLES,
      (([], (-1 : Int)) : List (Nat × String) × Int).2 <
        calculate_assignment_score champion_roles (dict_of_zip pids x) := by
    refine ⟨p0, hp0, ?_⟩
    have := calculate_assignment_score_nonneg champion_roles (dict_of_zip pids p0) h
    simp only []
    omega
  obtain ⟨l1, x, l2, hdec, h1, h2, h3, h4⟩ :=
    select_best_found (dict_of_zip pids) (calculate_assignment_score champion_roles)
      (py_permutations REQUIRED_ROLES) ([], -1) hex
  refine ⟨l1, x, l2, hdec, ?_, ?_, h3, h4⟩
  · rw [best_assignment_fold_eq]; exact h1
  · rw [best_assignment_fold_eq]; exact h2

theorem final_assignment_cons (champion_roles : List (Nat × List String))
    (p : Nat × String) (rest : List (Nat × String)) :
    final_assignment champion_roles (p :: rest) =
      (match lookupA champion_roles p.1 with
       | some prefs => if prefs ≠ [] then (if p.2 ∈ prefs then p else (p.1, "")) else p
       | none => p) :: final_assignment champion_roles rest := rfl

theorem map_fst_final_assignment (champion_roles : List (Nat × List String))
    (best : List (Nat × String)) :
    (final_assignment champion_roles best).map Prod.fst = best.map Prod.fst := by
  induction best with
  | nil => rfl
  | cons p rest ih =>
      rw [final_assignment_cons]
      simp only [List.map_cons, ih]
      congr 1
      cases hl : lookupA champion_roles p.1 with
      | none => rfl
      | some prefs =>
          by_cases h1 : prefs ≠ []
          · by_cases h2 : p.2 ∈ prefs
            · simp [h1, h2]
            · simp [h1, h2]
          · simp [h1]

theorem lookupA_final_assignment (champion_roles : List (Nat × List String))
    (best : List (Nat × String)) (pid : Nat) :
    lookupA (final_assignment champion_roles best) pid =
      (lookupA best pid).map (fun role =>
        match lookupA champion_roles pid with
        | some prefs => if prefs ≠ [] then (if role ∈ prefs then role else "") else role
        | none => role) := by
  induction best with
  | nil => rfl
  | cons p rest ih =>
      rw [final_assignment_cons]
      by_cases hp : p.1 = pid
      · subst hp
        cases hl : lookupA champion_roles p.1 with
        | none => simp [lookupA]
        | some prefs =>
            by_cases h1 : prefs ≠ []
            · by_cases h2 : p.2 ∈ prefs
              · simp [lookupA, h1, h2]
              · simp [lookupA, h1, h2]
            · simp [lookupA, h1]
      · have hfst : (match lookupA champion_roles p.1 with
            | some prefs => if p.2 ∈ prefs then p else (p.1, "")
            | none => p).1 = p.1 := by
          cases lookupA champion_roles p.1 with
          | none => rfl
          | some prefs => by_cases h2 : p.2 ∈ prefs <;> simp [h2]
        cases hl : lookupA champion_roles p.1 with
        | none => simp [lookupA, hp, ih]
        | some prefs =>
            by_cases h1 : prefs ≠ []
            · by_cases h2 : p.2 ∈ prefs
              · simp [lookupA, hp, h1, h2, ih]
              · simp [lookupA, hp, h1, h2, ih]
            · simp [lookupA, hp, h1, ih]

/-! Claim-facing definitions for the Role Resolver. -/

/-- Local `best_assignment` of `assign_team_roles`: the winner of the
permutation search, before the ambiguity post-process. -/
def best_assignment_of (roleData : List (String × List String))
    (team_champions : List (Nat × String × Nat)) : List (Nat × String) :=
  (best_assignment_fold (build_champion_roles roleData team_champions)
    (team_champions.map (fun m => m.1))).1

theorem assign_team_roles_eq (roleData : List (String × List String))
    (team_champions : List (Nat × String × Nat)) :
    assign_team_roles roleData team_champions =
      final_assignment (build_champion_roles roleData team_champions)
        (best_assignment_of roleData team_champions) := rfl

/-- Modelled from the claim's words (C4), literal reading: per-member award of
10 - 2*i on a preference hit (else 1), PLUS a flat +3 whenever the
conventional-slot hint matches, regardless of the preference hit; flat 5/2 for
a member with no preference data. -/
def claim_member_score_literal (champion_roles : List (Nat × List String))
    (pid : Nat) (role : String) : Int :=
  match lookupA champion_roles pid with
  | some prefs =>
      if prefs ≠ [] then
        (match prefs.findIdx? (fun r => r = role) with
         | some role_index => 10 - (role_index : Int) * 2
         | none => 1) +
        (if position_match pid role then 3 else 0)
      else if position_match pid role then 5 else 2
  | none => if position_match pid role then 5 else 2

/-- Literal claim reading of the whole-bijection score: sum of the literal
per-member scores. -/
def claim_assignment_score_literal (champion_roles : List (Nat × List String))
    (assignment : List (Nat × String)) : Int :=
  (assignment.map (fun p => claim_member_score_literal champion_roles p.1 p.2)).sum

/-- Amended claim score (C4): as the literal reading, except that the +3
conventional-slot bonus is awarded only when the assigned role also appears in
the member's preference list. -/
def claim_member_score (champion_roles : List (Nat × List String))
    (pid : Nat) (role : String) : Int :=
  match lookupA champion_roles pid with
  | some prefs =>
      if prefs ≠ [] then
        (match prefs.findIdx? (fun r => r = role) with
         | some role_index => 10 - (role_index : Int) * 2
         | none => 1) +
        (if role ∈ prefs ∧ position_match pid role then 3 else 0)
      else if position_match pid role then 5 else 2
  | none => if position_match pid role then 5 else 2

theorem findIdx?_none_not_mem {α : Type} (p : α → Bool) :
    ∀ (l : List α) (s : Nat), List.findIdx? p l s = none → ∀ x ∈ l, ¬ p x = true := by
  intro l
  induction l with
  | nil => intro s h x hx; simp at hx
  | cons y ys ih =>
      intro s h x hx
      rw [List.findIdx?] at h
      by_cases hp : p y = true
      · rw [if_pos hp] at h; simp at h
      · rw [if_neg hp] at h
        rcases List.mem_cons.mp hx with hx | hx
        · subst hx; exact hp
        · exact ih (s + 1) h x hx

theorem findIdx?_role_none_of_not_mem (role : String) :
    ∀ (prefs : List String) (s : Nat), role ∉ prefs →
      List.findIdx? (fun r => r = role) prefs s = none := by
  intro prefs
  induction prefs with
  | nil => intro s _; rfl
  | cons x xs ih =>
      intro s h
      rw [List.findIdx?]
      have hx : ¬ x = role := by
        intro e
        exact h (e ▸ List.mem_cons_self x xs)
      rw [if_neg (by simpa using hx)]
      exact ih (s + 1) (fun hm => h (List.mem_cons_of_mem _ hm))

theorem mem_of_findIdx?_role_some (role : String) (prefs : List String) (s i : Nat)
    (h : List.findIdx? (fun r => r = role) prefs s = some i) : role ∈ prefs := by
  by_contra hcon
  rw [findIdx?_role_none_of_not_mem role prefs s hcon] at h
  exact Option.noConfusion h

theorem not_mem_of_findIdx?_role_none (role : String) (prefs : List String) (s : Nat)
    (h : List.findIdx? (fun r => r = role) prefs s = none) : role ∉ prefs := by
  intro hm
  have := findIdx?_none_not_mem (fun r => r = role) prefs s h role hm
  simp at this

theorem claim_member_score_none (champion_roles : List (Nat × List String)) (pid : Nat)
    (role : String) (h : lookupA champion_roles pid = none) :
    claim_member_score champion_roles pid role = if position_match pid role then 5 else 2 := by
  rw [claim_member_score, h]

theorem claim_member_score_some (champion_roles : List (Nat × List String)) (pid : Nat)
    (role : String) (prefs : List String) (h : lookupA champion_roles pid = some prefs) :
    claim_member_score champion_roles pid role =
      if prefs ≠ [] then
        (match prefs.findIdx? (fun r => r = role) with
         | some role_index => 10 - (role_index : Int) * 2
         | none => 1) +
        (if role ∈ prefs ∧ position_match pid role then 3 else 0)
      else if position_match pid role then 5 else 2 := by
  rw [claim_member_score, h]

theorem member_score_eq_claim (champion_roles : List (Nat × List String))
    (pid : Nat) (role : String) :
    member_score champion_roles pid role = claim_member_score champion_roles pid role := by
  cases hl : lookupA champion_roles pid with
  | none => rw [member_score_none _ _ _ hl, claim_member_score_none _ _ _ hl]
  | some prefs =>
      rw [member_score_some _ _ _ _ hl, claim_member_score_some _ _ _ _ hl]
      by_cases hne : prefs ≠ []
      · rw [if_pos hne, if_pos hne]
        cases hidx : prefs.findIdx? (fun r => r = role) with
        | some i =>
            have hmem : role ∈ prefs := mem_of_findIdx?_role_some role prefs 0 i hidx
            simp [hmem]
        | none =>
            have hnot : role ∉ prefs := not_mem_of_findIdx?_role_none role prefs 0 hidx
            simp [hnot]
      · rw [if_neg hne, if_neg hne]

theorem calculate_assignment_score_eq_claim (champion_roles : List (Nat × List String))
    (assignment : List (Nat × String)) :
    calculate_assignment_score champion_roles assignment =
      (assignment.map (fun p => claim_member_score champion_roles p.1 p.2)).sum := by
  have h0 := calculate_assignment_score_eq_sum champion_roles assignment 0
  have he : calculate_assignment_score champion_roles assignment =
      (assignment.map (fun p => member_score champion_roles p.1 p.2)).sum := by
    simpa [calculate_assignment_score] using h0
  rw [he]
  congr 1
  apply List.map_congr_left
  intro p _
  exact member_score_eq_claim champion_roles p.1 p.2

set_option maxRecDepth 1000000

/-- Team of five champions that are all exclusively top-lane in the fallback
role table (Sion, Aatrox, Fiora, Riven, Renekton). -/
def cex2_team : List (Nat × String × Nat) :=
  [(1, "Sion", 14), (2, "Aatrox", 266), (3, "Fiora", 114), (4, "Riven", 92), (5, "Renekton", 58)]

/-- Six-member team with pairwise distinct participant ids. -/
def cex10_team : List (Nat × String × Nat) :=
  [(1, "Sion", 14), (2, "Aatrox", 266), (3, "Fiora", 114), (4, "Riven", 92),
   (5, "Renekton", 58), (6, "Garen", 86)]

/-- C2, counterexample: for the all-top five-member team, the mapping returned
by `assign_team_roles` is not a bijection onto the five required roles — four
members are reported with the empty string and the role "jungle" is attained
by nobody (the ambiguity post-process blanks every off-affinity member). -/
theorem claim2_counterexample :
    (assign_team_roles [] cex2_team).map Prod.fst = [1, 2, 3, 4, 5] ∧
    (assign_team_roles [] cex2_team).map Prod.snd = ["top", "", "", "", ""] ∧
    "jungle" ∉ (assign_team_roles [] cex2_team).map Prod.snd := by decide

/-- C2, amended: for a five-member team with distinct participant ids (and an
affinity table whose preference lists have the documented shape, at most the
five roles), the assignment selected by the permutation search — before the
ambiguity post-process — is a bijection onto exactly the five required roles;
the returned mapping is defined on exactly the five participant ids, each
carrying either its bijection role or the empty string. -/
theorem claim2_role_bijection_before_marking (roleData : List (String × List String))
    (team_champions : List (Nat × String × Nat))
    (h5 : team_champions.length = 5)
    (hnd : (team_champions.map (fun m => m.1)).Nodup)
    (hwf : ∀ q ∈ roleData, (q.2).length ≤ 5) :
    ∃ perm, perm.Perm REQUIRED_ROLES ∧
      best_assignment_of roleData team_champions =
        (team_champions.map (fun m => m.1)).zip perm ∧
      (assign_team_roles roleData team_champions).map Prod.fst =
        team_champions.map (fun m => m.1) ∧
      ∀ pr ∈ (team_champions.map (fun m => m.1)).zip perm,
        lookupA (assign_team_roles roleData team_champions) pr.1 = some pr.2 ∨
        lookupA (assign_team_roles roleData team_champions) pr.1 = some "" := by
  obtain ⟨l1, perm, l2, hdec, hbest, hscore, hfirst, hmax⟩ :=
    best_assignment_fold_spec (build_champion_roles roleData team_champions)
      (team_champions.map (fun m => m.1))
      (build_champion_roles_bounded roleData team_champions hwf)
  have hperm_mem : perm ∈ py_permutations REQUIRED_ROLES := by
    rw [hdec]; simp
  have hperm : perm.Perm REQUIRED_ROLES := mem_py_permutations_perm _ _ hperm_mem
  have hlenp : perm.length = 5 := by
    have hl := hperm.length_eq
    simpa [REQUIRED_ROLES] using hl
  have hpids_len : (team_champions.map (fun m => m.1)).length = 5 := by simp [h5]
  have hzip : dict_of_zip (team_champions.map (fun m => m.1)) perm =
      (team_champions.map (fun m => m.1)).zip perm := dict_of_zip_eq_zip _ _ hnd
  have hbest' : best_assignment_of roleData team_champions =
      (team_champions.map (fun m => m.1)).zip perm := by
    rw [best_assignment_of, hbest, hzip]
  have hkeys : (((team_champions.map (fun m => m.1)).zip perm).map Prod.fst).Nodup := by
    rw [map_fst_zip_eq_take]
    exact (List.take_sublist _ _).nodup hnd
  refine ⟨perm, hperm, hbest', ?_, ?_⟩
  · rw [assign_team_roles_eq, map_fst_final_assignment, hbest', map_fst_zip_eq_take, hlenp,
      ← hpids_len, List.take_length]
  · intro pr hpr
    have hlook : lookupA (best_assignment_of roleData team_champions) pr.1 = some pr.2 := by
      rw [hbest']
      exact lookupA_of_mem_nodup _ _ _ hkeys (by simpa using hpr)
    rw [assign_team_roles_eq, lookupA_final_assignment, hlook]
    simp only [Option.map_some']
    cases hcr : lookupA (build_champion_roles roleData team_champions) pr.1 with
    | none => left; simp
    | some prefs =>
        by_cases hne : prefs ≠ []
        · by_cases hin : pr.2 ∈ prefs
          · left; simp [hne, hin]
          · right; simp [hne, hin]
        · left; simp [hne]

/-- Witness for the amended C2 theorem at the concrete all-top team. -/
theorem claim2_role_bijection_witness :
    ∃ perm, perm.Perm REQUIRED_ROLES ∧
      best_assignment_of [] cex2_team = (cex2_team.map (fun m => m.1)).zip perm ∧
      (assign_team_roles [] cex2_team).map Prod.fst = cex2_team.map (fun m => m.1) ∧
      ∀ pr ∈ (cex2_team.map (fun m => m.1)).zip perm,
        lookupA (assign_team_roles [] cex2_team) pr.1 = some pr.2 ∨
        lookupA (assign_team_roles [] cex2_team) pr.1 = some "" :=
  claim2_role_bijection_before_marking [] cex2_team (by decide) (by decide) (by decide)

/-- C4, counterexample to the literal reading: for a member whose non-empty
preference list misses the assigned role but whose conventional slot matches
(participant 2 assigned "jungle" with preference list ["top"]), the code
awards 1 point with no +3 bonus, while the claim's literal formula awards
1 + 3 = 4. -/
theorem claim4_counterexample :
    calculate_assignment_score [(2, ["top"])] [(2, "jungle")] = 1 ∧
    claim_assignment_score_literal [(2, ["top"])] [(2, "jungle")] = 4 := by decide

/-- C4, amended: `calculate_assignment_score` sums per member 10 - 2*i on a
preference hit at index i (else 1), with the flat +3 conventional-slot bonus
awarded only when the role also appears in the preference list, and the flat
5/2 positional score for members without preference data; the search selects
the bijection with the strictly highest total score, the first maximum in
`itertools.permutations` enumeration order winning ties. -/
theorem claim4_scoring_and_selection (champion_roles : List (Nat × List String))
    (pids : List Nat) (hwf : ∀ q ∈ champion_roles, (q.2).length ≤ 5) :
    (∀ assignment : List (Nat × String),
       calculate_assignment_score champion_roles assignment =
         (assignment.map (fun p => claim_member_score champion_roles p.1 p.2)).sum) ∧
    (∃ l1 perm l2, py_permutations REQUIRED_ROLES = l1 ++ perm :: l2 ∧
       (best_assignment_fold champion_roles pids).1 = dict_of_zip pids perm ∧
       (best_assignment_fold champion_roles pids).2 =
         calculate_assignment_score champion_roles (dict_of_zip pids perm) ∧
       (∀ q ∈ l1, calculate_assignment_score champion_roles (dict_of_zip pids q) <
         calculate_assignment_score champion_roles (dict_of_zip pids perm)) ∧
       (∀ q ∈ py_permutations REQUIRED_ROLES,
         calculate_assignment_score champion_roles (dict_of_zip pids q) ≤
           calculate_assignment_score champion_roles (dict_of_zip pids perm))) :=
  ⟨fun a => calculate_assignment_score_eq_claim champion_roles a,
   best_assignment_fold_spec champion_roles pids hwf⟩

/-- Witness for the amended C4 theorem at a concrete preference map and
assignment. -/
theorem claim4_scoring_witness :
    calculate_assignment_score [(2, ["top"])] [(2, "top")] =
      ([((2 : Nat), "top")].map (fun p => claim_member_score [(2, ["top"])] p.1 p.2)).sum :=
  (claim4_scoring_and_selection [(2, ["top"])] [2] (by decide)).1 [(2, "top")]

/-- C7: after the post-process of `assign_team_roles`, a member whose
optimally-assigned role is absent from their non-empty preference list is
reported with the empty string, and a member with an empty preference list
(or no preference entry) keeps the assigned role as-is. -/
theorem claim7_ambiguity_marking (roleData : List (String × List String))
    (team_champions : List (Nat × String × Nat)) (pid : Nat) (role : String)
    (h : lookupA (best_assignment_of roleData team_champions) pid = some role) :
    (∀ prefs, lookupA (build_champion_roles roleData team_champions) pid = some prefs →
       ((prefs ≠ [] → role ∉ prefs →
           lookupA (assign_team_roles roleData team_champions) pid = some "") ∧
        (prefs = [] →
           lookupA (assign_team_roles roleData team_champions) pid = some role))) ∧
    (lookupA (build_champion_roles roleData team_champions) pid = none →
       lookupA (assign_team_roles roleData team_champions) pid = some role) := by
  constructor
  · intro prefs hcr
    constructor
    · intro hne hnot
      rw [assign_team_roles_eq, lookupA_final_assignment, h]
      simp only [Option.map_some']
      rw [hcr]
      simp [hne, hnot]
    · intro hempty
      rw [assign_team_roles_eq, lookupA_final_assignment, h]
      simp only [Option.map_some']
      rw [hcr]
      simp [hempty]
  · intro hcr
    rw [assign_team_roles_eq, lookupA_final_assignment, h]
    simp only [Option.map_some']
    rw [hcr]

/-- Witness for C7: participant 2 of the all-top team is optimally assigned
"jungle", which is not in its preference list ["top"], so the reported role is
the empty string. -/
theorem claim7_ambiguity_witness :
    (∀ prefs, lookupA (build_champion_roles [] cex2_team) 2 = some prefs →
       ((prefs ≠ [] → "jungle" ∉ prefs →
           lookupA (assign_team_roles [] cex2_team) 2 = some "") ∧
        (prefs = [] →
           lookupA (assign_team_roles [] cex2_team) 2 = some "jungle"))) ∧
    (lookupA (build_champion_roles [] cex2_team) 2 = none →
       lookupA (assign_team_roles [] cex2_team) 2 = some "jungle") :=
  claim7_ambiguity_marking [] cex2_team 2 "jungle" (by decide)

/-- C10: `assign_team_roles` is total for any team size; for pairwise-distinct
participant ids the returned mapping is keyed on exactly the first
min(n, 5) participant ids (members past the fifth receive no role), and the
roles chosen before the ambiguity post-process are pairwise distinct. -/
theorem claim10_domain_and_distinct_roles (roleData : List (String × List String))
    (team_champions : List (Nat × String × Nat))
    (hnd : (team_champions.map (fun m => m.1)).Nodup)
    (hwf : ∀ q ∈ roleData, (q.2).length ≤ 5) :
    (assign_team_roles roleData team_champions).map Prod.fst =
      (team_champions.map (fun m => m.1)).take 5 ∧
    ((best_assignment_of roleData team_champions).map Prod.snd).Nodup ∧
    (∀ pid ∈ (team_champions.map (fun m => m.1)).drop 5,
       lookupA (assign_team_roles roleData team_champions) pid = none) := by
  obtain ⟨l1, perm, l2, hdec, hbest, hscore, hfirst, hmax⟩ :=
    best_assignment_fold_spec (build_champion_roles roleData team_champions)
      (team_champions.map (fun m => m.1))
      (build_champion_roles_bounded roleData team_champions hwf)
  have hperm_mem : perm ∈ py_permutations REQUIRED_ROLES := by
    rw [hdec]; simp
  have hperm : perm.Perm REQUIRED_ROLES := mem_py_permutations_perm _ _ hperm_mem
  have hlenp : perm.length = 5 := by
    have hl := hperm.length_eq
    simpa [REQUIRED_ROLES] using hl
  have hzip : dict_of_zip (team_champions.map (fun m => m.1)) perm =
      (team_champions.map (fun m => m.1)).zip perm := dict_of_zip_eq_zip _ _ hnd
  have hbest' : best_assignment_of roleData team_champions =
      (team_champions.map (fun m => m.1)).zip perm := by
    rw [best_assignment_of, hbest, hzip]
  have hkeys : (assign_team_roles roleData team_champions).map Prod.fst =
      (team_champions.map (fun m => m.1)).take 5 := by
    rw [assign_team_roles_eq, map_fst_final_assignment, hbest', map_fst_zip_eq_take, hlenp]
  refine ⟨hkeys, ?_, ?_⟩
  · rw [hbest', map_snd_zip_eq_take]
    have hpnd : perm.Nodup := hperm.nodup_iff.mpr (by decide)
    exact (List.take_sublist _ _).nodup hpnd
  · intro pid hpid
    apply lookupA_eq_none_of_not_mem
    rw [hkeys]
    have hsplit : ((team_champions.map (fun m => m.1)).take 5 ++
        (team_champions.map (fun m => m.1)).drop 5).Nodup := by
      rw [List.take_append_drop]
      exact hnd
    have hdisj := (List.nodup_append.mp hsplit).2.2
    intro hmem
    exact hdisj hmem hpid

/-- Witness for C10 at the concrete six-member team: the sixth member gets no
role and the internally chosen roles are pairwise distinct. -/
theorem claim10_domain_witness :
    (assign_team_roles [] cex10_team).map Prod.fst =
      (cex10_team.map (fun m => m.1)).take 5 ∧
    ((best_assignment_of [] cex10_team).map Prod.snd).Nodup ∧
    (∀ pid ∈ (cex10_team.map (fun m => m.1)).drop 5,
       lookupA (assign_team_roles [] cex10_team) pid = none) :=
  claim10_domain_and_distinct_roles [] cex10_team (by decide) (by decide)

/-! Spec-side observation functions over the input stream, used to state the
parser claims. -/

/-- A record that reaches the ban/pick processing: not a game_end record, and
in one of the two draft phases. -/
def processed_record (r : Snapshot) : Prop :=
  r.rfc461Schema ≠ some "game_end" ∧
  (r.gameState = some "CHAMP_SELECT" ∨ r.gameState = some "PRE_CHAMP_SELECT")

instance (r : Snapshot) : Decidable (processed_record r) := by
  unfold processed_record
  infer_instance

/-- All roster members a record carries, teamOne slot first (the processing
order of the picks loop). -/
def record_members (r : Snapshot) : List RosterMember :=
  r.teamOne.getD [] ++ r.teamTwo.getD []

/-- Roster members of one raw line. -/
def line_members : RawLine → List RosterMember
  | .record r => record_members r
  | _ => []

/-- All roster members of the stream, in processing order. -/
def stream_members (lines : List RawLine) : List RosterMember :=
  lines.flatMap line_members

/-- Display names are a usable identity over a member list: two members carry
the same display name exactly when they are the same participant. -/
def members_consistent (ms : List RosterMember) : Prop :=
  ∀ m1 ∈ ms, ∀ m2 ∈ ms,
    (m1.participantID = m2.participantID ↔ m1.displayName = m2.displayName)

/-- Predicate `members_consistent` over the whole stream. -/
def names_consistent (lines : List RawLine) : Prop :=
  members_consistent (stream_members lines)

/-- The (championId, pickTurn) observation a member entry contributes for a
participant: only entries of that participant with championId > 0 count. -/
def member_obs (pid : Nat) (m : RosterMember) : Option (Nat × Nat) :=
  if m.participantID = pid ∧ 0 < m.championID then some (m.championID, m.pickTurn)
  else none

/-- A processed record's observation sequence for a participant. -/
def record_obs (r : Snapshot) (pid : Nat) : List (Nat × Nat) :=
  if processed_record r then (record_members r).filterMap (member_obs pid) else []

/-- One line's observation sequence for a participant. -/
def line_obs (l : RawLine) (pid : Nat) : List (Nat × Nat) :=
  match l with
  | .record r => record_obs r pid
  | _ => []

/-- The stream's (championId, pickTurn) observation sequence for a
participant, in processing order. -/
def stream_obs (lines : List RawLine) (pid : Nat) : List (Nat × Nat) :=
  lines.flatMap (fun l => line_obs l pid)

/-- Ban identity keys a processed record contributes, in order. -/
def record_ban_keys (r : Snapshot) : List (Nat × Nat × Nat) :=
  if processed_record r then
    r.bannedChampions.map (fun b => (b.championID, b.pickTurn, b.teamID))
  else []

/-- Ban identity keys of one raw line. -/
def line_ban_keys : RawLine → List (Nat × Nat × Nat)
  | .record r => record_ban_keys r
  | _ => []

/-- All ban identity keys observed in the stream, in order, duplicates kept. -/
def stream_ban_keys (lines : List RawLine) : List (Nat × Nat × Nat) :=
  lines.flatMap line_ban_keys

/-- Projection of a log entry to its ban content (championID, pickTurn, side);
`none` for picks. -/
def ban_proj : DraftEvent → Option (Nat × Nat × String)
  | .ban b => some (b.championID, b.pickTurn, b.team)
  | .pick _ => none

/-- The ban content determined by an identity key. -/
def ban_shape (k : Nat × Nat × Nat) : Nat × Nat × String :=
  (k.1, k.2.1, ban_side k.2.2)

/-- Predicate for a Pick action of a given participant. -/
def is_pick_for (pid : Nat) : DraftEvent → Bool
  | .pick p => p.participant_id = pid
  | .ban _ => false

/-- Modelled from the amended claim C9: the team name a roster slot ends up
with — the first whitespace token of the first space-containing member of the
first processed record whose slot contains such a member (not merely the first
record whose slot is non-empty). -/
def spec_slot_name (slot : Snapshot → Option (List RosterMember)) :
    List RawLine → Option String
  | [] => none
  | RawLine.record r :: rest =>
      if processed_record r then
        match slot r with
        | some members =>
            if members ≠ [] then
              match capture_team_name members with
              | .ok (some n) => some n
              | _ => spec_slot_name slot rest
            else spec_slot_name slot rest
        | none => spec_slot_name slot rest
      else spec_slot_name slot rest
  | _ :: rest => spec_slot_name slot rest

theorem stream_obs_append (l1 l2 : List RawLine) (pid : Nat) :
    stream_obs (l1 ++ l2) pid = stream_obs l1 pid ++ stream_obs l2 pid :=
  List.flatMap_append l1 l2 _

theorem stream_ban_keys_append (l1 l2 : List RawLine) :
    stream_ban_keys (l1 ++ l2) = stream_ban_keys l1 ++ stream_ban_keys l2 :=
  List.flatMap_append l1 l2 _

theorem stream_members_append (l1 l2 : List RawLine) :
    stream_members (l1 ++ l2) = stream_members l1 ++ stream_members l2 :=
  List.flatMap_append l1 l2 _

theorem members_consistent_sublist {ms ms' : List RosterMember}
    (hsub : ∀ m ∈ ms, m ∈ ms') (h : members_consistent ms') : members_consistent ms :=
  fun m1 h1 m2 h2 => h m1 (hsub m1 h1) m2 (hsub m2 h2)

theorem names_consistent_take (lines : List RawLine) (l1 l2 : List RawLine)
    (hdec : lines = l1 ++ l2) (h : names_consistent lines) : names_consistent l1 := by
  apply members_consistent_sublist _ h
  intro m hm
  rw [hdec, stream_members_append]
  exact List.mem_append_left _ hm

theorem spec_slot_name_append (slot : Snapshot → Option (List RosterMember)) :
    ∀ (l1 l2 : List RawLine),
      spec_slot_name slot (l1 ++ l2) =
        match spec_slot_name slot l1 with
        | some n => some n
        | none => spec_slot_name slot l2 := by
  intro l1
  induction l1 with
  | nil => intro l2; rfl
  | cons l rest ih =>
      intro l2
      cases l with
      | badJson => simpa [spec_slot_name] using ih l2
      | malformed => simpa [spec_slot_name] using ih l2
      | record r =>
          by_cases hp : processed_record r
          · cases hslot : slot r with
            | none => simp [spec_slot_name, hp, hslot, ih l2]
            | some members =>
                by_cases hne : members ≠ []
                · cases hcap : capture_team_name members with
                  | error e => simp [spec_slot_name, hp, hslot, hne, hcap, ih l2]
                  | ok o =>
                      cases o with
                      | none => simp [spec_slot_name, hp, hslot, hne, hcap, ih l2]
                      | some n => simp [spec_slot_name, hp, hslot, hne, hcap]
                · simp [spec_slot_name, hp, hslot, hne, ih l2]
          · simp [spec_slot_name, hp, ih l2]

/-! Lemmas about the champion-swap scan `update_first_pick`. -/

theorem update_first_pick_ban_cons (b : BanEvent) (rest : List DraftEvent)
    (dn ch : String) (c : Nat) (ts : String) (ln : Nat) :
    update_first_pick (DraftEvent.ban b :: rest) dn ch c ts ln =
      DraftEvent.ban b :: update_first_pick rest dn ch c ts ln := rfl

theorem update_first_pick_pick_cons (p : PickEvent) (rest : List DraftEvent)
    (dn ch : String) (c : Nat) (ts : String) (ln : Nat) :
    update_first_pick (DraftEvent.pick p :: rest) dn ch c ts ln =
      if p.player = dn then
        DraftEvent.pick { p with champion := ch, championID := c,
                                 timestamp := ts, line := ln } :: rest
      else DraftEvent.pick p :: update_first_pick rest dn ch c ts ln := rfl

theorem update_first_pick_countP (dn ch : String) (c : Nat) (ts : String) (ln : Nat)
    (pid : Nat) :
    ∀ events : List DraftEvent,
      (update_first_pick events dn ch c ts ln).countP (is_pick_for pid) =
        events.countP (is_pick_for pid) := by
  intro events
  induction events with
  | nil => rfl
  | cons e rest ih =>
      cases e with
      | ban b => simp [update_first_pick, List.countP_cons, ih]
      | pick p =>
          by_cases hp : p.player = dn
          · simp [update_first_pick, hp, List.countP_cons, is_pick_for]
          · simp [update_first_pick, hp, List.countP_cons, ih]

theorem update_first_pick_filterMap_ban (dn ch : String) (c : Nat) (ts : String) (ln : Nat) :
    ∀ events : List DraftEvent,
      (update_first_pick events dn ch c ts ln).filterMap ban_proj =
        events.filterMap ban_proj := by
  intro events
  induction events with
  | nil => rfl
  | cons e rest ih =>
      cases e with
      | ban b => simp [update_first_pick, List.filterMap_cons, ban_proj, ih]
      | pick p =>
          by_cases hp : p.player = dn
          · simp [update_first_pick, hp, List.filterMap_cons, ban_proj]
          · simp [update_first_pick, hp, List.filterMap_cons, ban_proj, ih]

theorem update_first_pick_mem (dn ch : String) (c : Nat) (ts : String) (ln : Nat) :
    ∀ (events : List DraftEvent) (q : PickEvent),
      DraftEvent.pick q ∈ update_first_pick events dn ch c ts ln →
      ∃ p : PickEvent, DraftEvent.pick p ∈ events ∧
        q.pickTurn = p.pickTurn ∧ q.player = p.player ∧
        q.participant_id = p.participant_id ∧ q.team = p.team ∧
        q.team_key = p.team_key ∧ q.team_side = p.team_side ∧ q.role = p.role ∧
        (q = p ∨ (p.player = dn ∧ q.champion = ch ∧ q.championID = c)) := by
  intro events
  induction events with
  | nil => intro q hq; simp [update_first_pick] at hq
  | cons e rest ih =>
      intro q hq
      cases e with
      | ban b =>
          rw [update_first_pick_ban_cons] at hq
          rcases List.mem_cons.mp hq with hq | hq
          · exact DraftEvent.noConfusion hq
          · obtain ⟨p, hp, hfields⟩ := ih q hq
            exact ⟨p, List.mem_cons_of_mem _ hp, hfields⟩
      | pick p =>
          by_cases hpp : p.player = dn
          · rw [update_first_pick_pick_cons, if_pos hpp] at hq
            rcases List.mem_cons.mp hq with hq | hq
            · injection hq with hq2
              subst hq2
              exact ⟨p, List.mem_cons_self _ _, rfl, rfl, rfl, rfl, rfl, rfl, rfl,
                Or.inr ⟨hpp, rfl, rfl⟩⟩
            · exact ⟨q, List.mem_cons_of_mem _ hq, rfl, rfl, rfl, rfl, rfl, rfl, rfl,
                Or.inl rfl⟩
          · rw [update_first_pick_pick_cons, if_neg hpp] at hq
            rcases List.mem_cons.mp hq with hq | hq
            · injection hq with hq2
              subst hq2
              exact ⟨_, List.mem_cons_self _ _, rfl, rfl, rfl, rfl, rfl, rfl, rfl, Or.inl rfl⟩
            · obtain ⟨p', hp', hfields⟩ := ih q hq
              exact ⟨p', List.mem_cons_of_mem _ hp', hfields⟩

theorem update_first_pick_targeted (dn ch : String) (c : Nat) (ts : String) (ln : Nat)
    (pid : Nat) :
    ∀ events : List DraftEvent,
      (∀ p : PickEvent, DraftEvent.pick p ∈ events →
        (p.player = dn ↔ p.participant_id = pid)) →
      events.countP (is_pick_for pid) ≤ 1 →
      ∀ q : PickEvent, DraftEvent.pick q ∈ update_first_pick events dn ch c ts ln →
        (q.participant_id ≠ pid → DraftEvent.pick q ∈ events) ∧
        (q.participant_id = pid → q.championID = c ∧ q.champion = ch) := by
  intro events
  induction events with
  | nil => intro _ _ q hq; simp [update_first_pick] at hq
  | cons e rest ih =>
      intro hdn hcnt q hq
      cases e with
      | ban b =>
          rw [update_first_pick_ban_cons] at hq
          rcases List.mem_cons.mp hq with hq | hq
          · exact DraftEvent.noConfusion hq
          · have hdn' : ∀ p : PickEvent, DraftEvent.pick p ∈ rest →
                (p.player = dn ↔ p.participant_id = pid) :=
              fun p hp => hdn p (List.mem_cons_of_mem _ hp)
            have hcnt' : rest.countP (is_pick_for pid) ≤ 1 := by
              have hbf : is_pick_for pid (DraftEvent.ban b) = false := rfl
              rw [List.countP_cons, hbf] at hcnt
              simpa using hcnt
            obtain ⟨h1, h2⟩ := ih hdn' hcnt' q hq
            exact ⟨fun hne => List.mem_cons_of_mem _ (h1 hne), h2⟩
      | pick p =>
          by_cases hpp : p.player = dn
          · have hppid : p.participant_id = pid := (hdn p (List.mem_cons_self _ _)).mp hpp
            have hrest0 : rest.countP (is_pick_for pid) = 0 := by
              have hpt : is_pick_for pid (DraftEvent.pick p) = true := by
                simp [is_pick_for, hppid]
              rw [List.countP_cons, hpt] at hcnt
              simp at hcnt
              rw [List.countP_eq_zero]
              intro a ha
              simp [hcnt a ha]
            have hrest_no : ∀ q' : PickEvent, DraftEvent.pick q' ∈ rest →
                q'.participant_id ≠ pid := by
              intro q' hq' he
              have := List.countP_eq_zero.mp hrest0 _ hq'
              simp [is_pick_for, he] at this
            rw [update_first_pick_pick_cons, if_pos hpp] at hq
            rcases List.mem_cons.mp hq with hq | hq
            · injection hq with hq2
              subst hq2
              refine ⟨fun hne => absurd hppid hne, fun _ => ⟨rfl, rfl⟩⟩
            · refine ⟨fun _ => List.mem_cons_of_mem _ hq, fun he => ?_⟩
              exact absurd he (hrest_no q hq)
          · have hppid : p.participant_id ≠ pid := by
              intro he
              exact hpp ((hdn p (List.mem_cons_self _ _)).mpr he)
            rw [update_first_pick_pick_cons, if_neg hpp] at hq
            rcases List.mem_cons.mp hq with hq | hq
            · injection hq with hq2
              subst hq2
              exact ⟨fun _ => List.mem_cons_self _ _, fun he => absurd he hppid⟩
            · have hdn' : ∀ p' : PickEvent, DraftEvent.pick p' ∈ rest →
                  (p'.player = dn ↔ p'.participant_id = pid) :=
                fun p' hp' => hdn p' (List.mem_cons_of_mem _ hp')
              have hcnt' : rest.countP (is_pick_for pid) ≤ 1 := by
                have hpf : is_pick_for pid (DraftEvent.pick p) = false := by
                  simp [is_pick_for, hppid]
                rw [List.countP_cons, hpf] at hcnt
                simpa using hcnt
              obtain ⟨h1, h2⟩ := ih hdn' hcnt' q hq
              exact ⟨fun hne => List.mem_cons_of_mem _ (h1 hne), h2⟩

/-! The pick-log invariant, stated against an abstract per-participant
observation function and ambient member list so that it can be threaded
through the member-by-member processing of one record. -/

/-- Invariant tying the pick entries of the draft log and the
`player_champions` map to the observation sequence `O` (per participant) and
the members `MS` seen so far: each observed participant owns exactly one Pick
action; the map holds the champion of the participant's last observation; a
Pick action's pickTurn is its participant's first observation's, its player
is the participant's display name, its champion name matches its champion id,
and its side is fixed by its roster slot; and — when display names identify
participants — its champion id is the map's current value. -/
def PickInvO (O : Nat → List (Nat × Nat)) (MS : List RosterMember)
    (events : List DraftEvent) (pc : List (Nat × Nat)) : Prop :=
  (∀ pid, events.countP (is_pick_for pid) = if O pid = [] then 0 else 1) ∧
  (∀ pid, lookupA pc pid = ((O pid).map Prod.fst).getLast?) ∧
  (∀ p : PickEvent, DraftEvent.pick p ∈ events →
    ((O p.participant_id).head?).map Prod.snd = some p.pickTurn ∧
    (∃ m ∈ MS, m.participantID = p.participant_id ∧ m.displayName = p.player) ∧
    p.champion = get_champion_name p.championID ∧
    p.team_side = (if p.team_key = "teamOne" then "Blue" else "Red") ∧
    (p.team_key = "teamOne" ∨ p.team_key = "teamTwo") ∧
    (members_consistent MS → lookupA pc p.participant_id = some p.championID))

theorem pickinv_congr {O1 O2 : Nat → List (Nat × Nat)} {MS : List RosterMember}
    {events : List DraftEvent} {pc : List (Nat × Nat)}
    (h : ∀ pid, O1 pid = O2 pid) (hinv : PickInvO O1 MS events pc) :
    PickInvO O2 MS events pc := by
  obtain ⟨hcount, hpc, hfields⟩ := hinv
  refine ⟨fun pid => ?_, fun pid => ?_, fun p hp => ?_⟩
  · rw [← h pid]; exact hcount pid
  · rw [← h pid]; exact hpc pid
  · have hf := hfields p hp
    rw [h p.participant_id] at hf
    exact hf

theorem pickinv_mono {O : Nat → List (Nat × Nat)} {MS MS' : List RosterMember}
    {events : List DraftEvent} {pc : List (Nat × Nat)}
    (hsub : ∀ m ∈ MS, m ∈ MS') (hinv : PickInvO O MS events pc) :
    PickInvO O MS' events pc := by
  obtain ⟨hcount, hpc, hfields⟩ := hinv
  refine ⟨hcount, hpc, fun p hp => ?_⟩
  obtain ⟨h1, ⟨m, hm, hm1, hm2⟩, h3, h4, h5, h6⟩ := hfields p hp
  exact ⟨h1, ⟨m, hsub m hm, hm1, hm2⟩, h3, h4, h5,
    fun hcons => h6 (members_consistent_sublist hsub hcons)⟩

theorem head?_append_left {α : Type} (l1 l2 : List α) (h : l1 ≠ []) :
    (l1 ++ l2).head? = l1.head? := by
  cases l1 with
  | nil => exact absurd rfl h
  | cons x xs => rfl

theorem member_obs_ne (pid : Nat) (m : RosterMember) (h : m.participantID ≠ pid) :
    member_obs pid m = none := by
  rw [member_obs, if_neg]
  intro hcon
  exact h hcon.1

theorem member_obs_self (m : RosterMember) (h : 0 < m.championID) :
    member_obs m.participantID m = some (m.championID, m.pickTurn) := by
  rw [member_obs, if_pos ⟨rfl, h⟩]

/-- Per-member step, no-op case: a member with championID 0 contributes no
observation and leaves the log and map unchanged. -/
theorem pickinv_zero (O : Nat → List (Nat × Nat)) (MS : List RosterMember)
    (events : List DraftEvent) (pc : List (Nat × Nat)) (m : RosterMember)
    (h0 : ¬ 0 < m.championID) (hinv : PickInvO O MS events pc) :
    PickInvO (fun pid => O pid ++ (member_obs pid m).toList) MS events pc := by
  apply pickinv_congr _ hinv
  intro pid
  have : member_obs pid m = none := by
    rw [member_obs, if_neg]
    intro hcon
    exact h0 hcon.2
  simp [this]

/-- Per-member step, first-observation case: appending a fresh Pick action and
binding the participant in the champion map preserves the invariant, the
observation sequence growing by this member's entry. -/
theorem pickinv_new (O : Nat → List (Nat × Nat)) (MS : List RosterMember)
    (events : List DraftEvent) (pc : List (Nat × Nat)) (m : RosterMember)
    (tk tn ts_side time : String) (ln : Nat)
    (hside : (tk = "teamOne" ∧ ts_side = "Blue") ∨ (tk = "teamTwo" ∧ ts_side = "Red"))
    (hm : m ∈ MS) (h0 : 0 < m.championID)
    (hl : lookupA pc m.participantID = none)
    (hinv : PickInvO O MS events pc) :
    PickInvO (fun pid => O pid ++ (member_obs pid m).toList) MS
      (events ++ [DraftEvent.pick {
        pickTurn := m.pickTurn,
        champion := get_champion_name m.championID,
        championID := m.championID,
        player := m.displayName,
        team := tn, team_key := tk, team_side := ts_side,
        participant_id := m.participantID,
        role := "TBD", timestamp := time, line := ln }])
      (insertA pc m.participantID m.championID) := by
  obtain ⟨hcount, hpc, hfields⟩ := hinv
  have hOnil : O m.participantID = [] := by
    have h1 := hpc m.participantID
    rw [hl] at h1
    have h2 := (List.getLast?_eq_none_iff).mp h1.symm
    exact List.map_eq_nil.mp h2
  have hobs_ne : ∀ pid, m.participantID ≠ pid →
      (fun pid => O pid ++ (member_obs pid m).toList) pid = O pid := by
    intro pid hne
    simp [member_obs_ne pid m hne]
  have hobs_self : (fun pid => O pid ++ (member_obs pid m).toList) m.participantID =
      [(m.championID, m.pickTurn)] := by
    simp [member_obs_self m h0, hOnil]
  refine ⟨fun pid => ?_, fun pid => ?_, fun p hp => ?_⟩
  · rw [List.countP_append]
    by_cases hpid : m.participantID = pid
    · subst hpid
      rw [hobs_self, hcount m.participantID, if_pos hOnil]
      simp [is_pick_for]
    · rw [hobs_ne pid hpid, hcount pid]
      have : is_pick_for pid (DraftEvent.pick {
        pickTurn := m.pickTurn,
        champion := get_champion_name m.championID,
        championID := m.championID,
        player := m.displayName,
        team := tn, team_key := tk, team_side := ts_side,
        participant_id := m.participantID,
        role := "TBD", timestamp := time, line := ln }) = false := by
        simp [is_pick_for, hpid]
      simp [this]
  · by_cases hpid : m.participantID = pid
    · subst hpid
      rw [lookupA_insertA_self, hobs_self]
      rfl
    · rw [lookupA_insertA_ne pc _ _ pid (fun e => hpid e.symm), hobs_ne pid hpid]
      exact hpc pid
  · rcases List.mem_append.mp hp with hp | hp
    · obtain ⟨h1, h2, h3, h4, h5, h6⟩ := hfields p hp
      have hpne : p.participant_id ≠ m.participantID := by
        intro he
        have hpos : 0 < events.countP (is_pick_for p.participant_id) := by
          rw [List.countP_pos]
          exact ⟨DraftEvent.pick p, hp, by simp [is_pick_for]⟩
        rw [hcount p.participant_id, he, if_pos hOnil] at hpos
        exact absurd hpos (by omega)
      refine ⟨?_, h2, h3, h4, h5, ?_⟩
      · rw [hobs_ne p.participant_id (fun e => hpne e.symm)]
        exact h1
      · intro hcons
        rw [lookupA_insertA_ne pc _ _ _ hpne]
        exact h6 hcons
    · have hp' : p = {
        pickTurn := m.pickTurn,
        champion := get_champion_name m.championID,
        championID := m.championID,
        player := m.displayName,
        team := tn, team_key := tk, team_side := ts_side,
        participant_id := m.participantID,
        role := "TBD", timestamp := time, line := ln } := by
        rcases List.mem_singleton.mp hp with h
        injection h
      subst hp'
      refine ⟨?_, ⟨m, hm, rfl, rfl⟩, rfl, ?_, ?_, ?_⟩
      · rw [hobs_self]
        rfl
      · rcases hside with ⟨hk, hs⟩ | ⟨hk, hs⟩
        · subst hk; subst hs
          show ("Blue" : String) = if ("teamOne" : String) = "teamOne" then "Blue" else "Red"
          decide
        · subst hk; subst hs
          show ("Red" : String) = if ("teamTwo" : String) = "teamOne" then "Blue" else "Red"
          decide
      · rcases hside with ⟨hk, _⟩ | ⟨hk, _⟩
        · left; exact hk
        · right; exact hk
      · intro _
        rw [lookupA_insertA_self]

/-- Per-member step, champion-swap case: mutating the matching Pick action in
place and rebinding the participant in the champion map preserves the
invariant. -/
theorem pickinv_swap (O : Nat → List (Nat × Nat)) (MS : List RosterMember)
    (events : List DraftEvent) (pc : List (Nat × Nat)) (m : RosterMember)
    (time : String) (ln : Nat)
    (hm : m ∈ MS) (h0 : 0 < m.championID) (prev : Nat)
    (hl : lookupA pc m.participantID = some prev)
    (hinv : PickInvO O MS events pc) :
    PickInvO (fun pid => O pid ++ (member_obs pid m).toList) MS
      (update_first_pick events m.displayName (get_champion_name m.championID)
        m.championID time ln)
      (insertA pc m.participantID m.championID) := by
  obtain ⟨hcount, hpc, hfields⟩ := hinv
  have hOne : O m.participantID ≠ [] := by
    intro hnil
    have h1 := hpc m.participantID
    rw [hl, hnil] at h1
    simp at h1
  have hobs_ne : ∀ pid, m.participantID ≠ pid →
      (fun pid => O pid ++ (member_obs pid m).toList) pid = O pid := by
    intro pid hne
    simp [member_obs_ne pid m hne]
  have hobs_self : (fun pid => O pid ++ (member_obs pid m).toList) m.participantID =
      O m.participantID ++ [(m.championID, m.pickTurn)] := by
    simp [member_obs_self m h0]
  refine ⟨fun pid => ?_, fun pid => ?_, fun q hq => ?_⟩
  · rw [update_first_pick_countP, hcount pid]
    by_cases hpid : m.participantID = pid
    · subst hpid
      rw [if_neg hOne, if_neg (by simp [hobs_self])]
    · rw [hobs_ne pid hpid]
  · by_cases hpid : m.participantID = pid
    · subst hpid
      rw [lookupA_insertA_self, hobs_self]
      simp
    · rw [lookupA_insertA_ne pc _ _ pid (fun e => hpid e.symm), hobs_ne pid hpid]
      exact hpc pid
  · obtain ⟨p, hpmem, hpt, hpl, hpid, hteam, hkey, hside', hrole, hor⟩ :=
      update_first_pick_mem _ _ _ _ _ events q hq
    obtain ⟨o1, o2, o3, o4, o5, o6⟩ := hfields p hpmem
    refine ⟨?_, ?_, ?_, ?_, ?_, ?_⟩
    · rw [hpid]
      by_cases hqm : p.participant_id = m.participantID
      · rw [hqm, hobs_self, head?_append_left _ _ hOne, ← hqm]
        rw [hpt]
        exact o1
      · rw [hobs_ne p.participant_id (fun e => hqm e.symm), hpt]
        exact o1
    · obtain ⟨m', hm', hm1, hm2⟩ := o2
      exact ⟨m', hm', by rw [hm1, hpid], by rw [hm2, hpl]⟩
    · rcases hor with hor | ⟨_, hch, hcid⟩
      · subst hor
        exact o3
      · rw [hch, hcid]
    · rw [hside', hkey]
      exact o4
    · rw [hkey]
      exact o5
    · intro hcons
      have hdn : ∀ p' : PickEvent, DraftEvent.pick p' ∈ events →
          (p'.player = m.displayName ↔ p'.participant_id = m.participantID) := by
        intro p' hp'
        obtain ⟨_, ⟨m', hm', hm1, hm2⟩, _⟩ := hfields p' hp'
        constructor
        · intro he
          have hname : m'.displayName = m.displayName := by rw [hm2, he]
          have := (hcons m' hm' m hm).mpr hname
          rw [← hm1, this]
        · intro he
          have hpidm : m'.participantID = m.participantID := by rw [hm1, he]
          have := (hcons m' hm' m hm).mp hpidm
          rw [← hm2, this]
      have hcnt : events.countP (is_pick_for m.participantID) ≤ 1 := by
        rw [hcount]
        split <;> omega
      obtain ⟨ht1, ht2⟩ :=
        update_first_pick_targeted _ _ _ _ _ m.participantID events hdn hcnt q hq
      by_cases hqm : q.participant_id = m.participantID
      · rw [hqm, lookupA_insertA_self, (ht2 hqm).1]
      · rw [lookupA_insertA_ne pc _ _ _ hqm]
        exact (hfields q (ht1 hqm)).2.2.2.2.2 hcons

/-- Per-member step, repeat-observation case: a member already bound to the
same champion changes nothing. -/
theorem pickinv_skip (O : Nat → List (Nat × Nat)) (MS : List RosterMember)
    (events : List DraftEvent) (pc : List (Nat × Nat)) (m : RosterMember)
    (h0 : 0 < m.championID)
    (hl : lookupA pc m.participantID = some m.championID)
    (hinv : PickInvO O MS events pc) :
    PickInvO (fun pid => O pid ++ (member_obs pid m).toList) MS events pc := by
  obtain ⟨hcount, hpc, hfields⟩ := hinv
  have hOne : O m.participantID ≠ [] := by
    intro hnil
    have h1 := hpc m.participantID
    rw [hl, hnil] at h1
    simp at h1
  have hobs_ne : ∀ pid, m.participantID ≠ pid →
      (fun pid => O pid ++ (member_obs pid m).toList) pid = O pid := by
    intro pid hne
    simp [member_obs_ne pid m hne]
  have hobs_self : (fun pid => O pid ++ (member_obs pid m).toList) m.participantID =
      O m.participantID ++ [(m.championID, m.pickTurn)] := by
    simp [member_obs_self m h0]
  refine ⟨fun pid => ?_, fun pid => ?_, fun q hq => ?_⟩
  · rw [hcount pid]
    by_cases hpid : m.participantID = pid
    · subst hpid
      rw [if_neg hOne, if_neg (by simp [hobs_self])]
    · rw [hobs_ne pid hpid]
  · by_cases hpid : m.participantID = pid
    · subst hpid
      rw [hl, hobs_self]
      simp
    · rw [hobs_ne pid hpid]
      exact hpc pid
  · obtain ⟨o1, o2, o3, o4, o5, o6⟩ := hfields q hq
    refine ⟨?_, o2, o3, o4, o5, o6⟩
    by_cases hqm : q.participant_id = m.participantID
    · rw [hqm, hobs_self, head?_append_left _ _ hOne, ← hqm]
      exact o1
    · rw [hobs_ne q.participant_id (fun e => hqm e.symm)]
      exact o1

/-- The Pick action appended for a first observation. -/
def pickEventOf (tk tn ts_side time : String) (ln : Nat) (m : RosterMember) : DraftEvent :=
  DraftEvent.pick {
    pickTurn := m.pickTurn,
    champion := get_champion_name m.championID,
    championID := m.championID,
    player := m.displayName,
    team := tn, team_key := tk, team_side := ts_side,
    participant_id := m.participantID,
    role := "TBD", timestamp := time, line := ln }

theorem process_pick_member_zero_eq (tk tn ts_side : String) (slot : Bool)
    (time : String) (ln : Nat) (st : ParseState) (m : RosterMember)
    (h0 : ¬ m.championID > 0) :
    process_pick_member tk tn ts_side slot time ln st m = st := by
  rw [process_pick_member, if_neg h0]

theorem process_pick_member_new_proj (tk tn ts_side : String) (slot : Bool)
    (time : String) (ln : Nat) (st : ParseState) (m : RosterMember)
    (h0 : m.championID > 0)
    (hl : lookupA st.player_champions m.participantID = none) :
    (process_pick_member tk tn ts_side slot time ln st m).draft_events =
      st.draft_events ++ [pickEventOf tk tn ts_side time ln m] ∧
    (process_pick_member tk tn ts_side slot time ln st m).player_champions =
      insertA st.player_champions m.participantID m.championID ∧
    (process_pick_member tk tn ts_side slot time ln st m).seen_bans = st.seen_bans ∧
    (process_pick_member tk tn ts_side slot time ln st m).team_one_name = st.team_one_name ∧
    (process_pick_member tk tn ts_side slot time ln st m).team_two_name = st.team_two_name ∧
    (process_pick_member tk tn ts_side slot time ln st m).winning_team = st.winning_team := by
  rw [process_pick_member, if_pos h0, hl]
  cases slot <;> exact ⟨rfl, rfl, rfl, rfl, rfl, rfl⟩

theorem process_pick_member_swap_proj (tk tn ts_side : String) (slot : Bool)
    (time : String) (ln : Nat) (st : ParseState) (m : RosterMember)
    (h0 : m.championID > 0) (prev : Nat)
    (hl : lookupA st.player_champions m.participantID = some prev)
    (hne : prev ≠ m.championID) :
    (process_pick_member tk tn ts_side slot time ln st m).draft_events =
      update_first_pick st.draft_events m.displayName (get_champion_name m.championID)
        m.championID time ln ∧
    (process_pick_member tk tn ts_side slot time ln st m).player_champions =
      insertA st.player_champions m.participantID m.championID ∧
    (process_pick_member tk tn ts_side slot time ln st m).seen_bans = st.seen_bans ∧
    (process_pick_member tk tn ts_side slot time ln st m).team_one_name = st.team_one_name ∧
    (process_pick_member tk tn ts_side slot time ln st m).team_two_name = st.team_two_name ∧
    (process_pick_member tk tn ts_side slot time ln st m).winning_team = st.winning_team := by
  rw [process_pick_member, if_pos h0, hl]
  dsimp only
  rw [if_pos hne]
  cases slot <;> exact ⟨rfl, rfl, rfl, rfl, rfl, rfl⟩

theorem process_pick_member_same_eq (tk tn ts_side : String) (slot : Bool)
    (time : String) (ln : Nat) (st : ParseState) (m : RosterMember)
    (h0 : m.championID > 0)
    (hl : lookupA st.player_champions m.participantID = some m.championID) :
    process_pick_member tk tn ts_side slot time ln st m = st := by
  rw [process_pick_member, if_pos h0, hl]
  dsimp only
  exact if_neg (fun h : m.championID ≠ m.championID => h rfl)

/-- One member of the picks loop: the invariant advances by the member's
observation, and everything outside the pick log and champion map is
untouched (the appended or mutated entries never change the ban content). -/
theorem process_pick_member_spec (tk tn ts_side : String) (slot : Bool)
    (time : String) (ln : Nat) (O : Nat → List (Nat × Nat)) (MS : List RosterMember)
    (st : ParseState) (m : RosterMember)
    (hside : (tk = "teamOne" ∧ ts_side = "Blue") ∨ (tk = "teamTwo" ∧ ts_side = "Red"))
    (hm : m ∈ MS)
    (hinv : PickInvO O MS st.draft_events st.player_champions) :
    PickInvO (fun pid => O pid ++ (member_obs pid m).toList) MS
      (process_pick_member tk tn ts_side slot time ln st m).draft_events
      (process_pick_member tk tn ts_side slot time ln st m).player_champions ∧
    (process_pick_member tk tn ts_side slot time ln st m).seen_bans = st.seen_bans ∧
    (process_pick_member tk tn ts_side slot time ln st m).team_one_name = st.team_one_name ∧
    (process_pick_member tk tn ts_side slot time ln st m).team_two_name = st.team_two_name ∧
    (process_pick_member tk tn ts_side slot time ln st m).winning_team = st.winning_team ∧
    (process_pick_member tk tn ts_side slot time ln st m).draft_events.filterMap ban_proj =
      st.draft_events.filterMap ban_proj := by
  by_cases h0 : m.championID > 0
  · cases hl : lookupA st.player_champions m.participantID with
    | none =>
        obtain ⟨he, hpc', hs, h1, h2, hw⟩ :=
          process_pick_member_new_proj tk tn ts_side slot time ln st m h0 hl
        refine ⟨?_, hs, h1, h2, hw, ?_⟩
        · rw [he, hpc']
          exact pickinv_new O MS st.draft_events st.player_champions m
            tk tn ts_side time ln hside hm h0 hl hinv
        · rw [he, List.filterMap_append]
          simp [pickEventOf, ban_proj]
    | some prev =>
        by_cases hne : prev ≠ m.championID
        · obtain ⟨he, hpc', hs, h1, h2, hw⟩ :=
            process_pick_member_swap_proj tk tn ts_side slot time ln st m h0 prev hl hne
          refine ⟨?_, hs, h1, h2, hw, ?_⟩
          · rw [he, hpc']
            exact pickinv_swap O MS st.draft_events st.player_champions m time ln
              hm h0 prev hl hinv
          · rw [he]
            exact update_first_pick_filterMap_ban _ _ _ _ _ st.draft_events
        · push_neg at hne
          subst hne
          rw [process_pick_member_same_eq tk tn ts_side slot time ln st m h0 hl]
          exact ⟨pickinv_skip O MS st.draft_events st.player_champions m h0 hl hinv,
            rfl, rfl, rfl, rfl, rfl⟩
  · rw [process_pick_member_zero_eq tk tn ts_side slot time ln st m h0]
    exact ⟨pickinv_zero O MS st.draft_events st.player_champions m h0 hinv,
      rfl, rfl, rfl, rfl, rfl⟩

/-- The whole picks loop of one roster slot: the invariant advances by the
slot's observations, in member order, and the rest of the state is frame. -/
theorem process_team_spec (tk tn ts_side : String) (slot : Bool) (time : String)
    (ln : Nat) (MS : List RosterMember)
    (hside : (tk = "teamOne" ∧ ts_side = "Blue") ∨ (tk = "teamTwo" ∧ ts_side = "Red")) :
    ∀ (members : List RosterMember) (st : ParseState) (O : Nat → List (Nat × Nat)),
      (∀ m ∈ members, m ∈ MS) →
      PickInvO O MS st.draft_events st.player_champions →
      PickInvO (fun pid => O pid ++ members.filterMap (member_obs pid)) MS
        (members.foldl (process_pick_member tk tn ts_side slot time ln) st).draft_events
        (members.foldl (process_pick_member tk tn ts_side slot time ln) st).player_champions ∧
      (members.foldl (process_pick_member tk tn ts_side slot time ln) st).seen_bans = st.seen_bans ∧
      (members.foldl (process_pick_member tk tn ts_side slot time ln) st).team_one_name = st.team_one_name ∧
      (members.foldl (process_pick_member tk tn ts_side slot time ln) st).team_two_name = st.team_two_name ∧
      (members.foldl (process_pick_member tk tn ts_side slot time ln) st).winning_team = st.winning_team ∧
      (members.foldl (process_pick_member tk tn ts_side slot time ln) st).draft_events.filterMap ban_proj =
        st.draft_events.filterMap ban_proj := by
  intro members
  induction members with
  | nil =>
      intro st O _ hinv
      exact ⟨pickinv_congr (fun pid => by simp) hinv, rfl, rfl, rfl, rfl, rfl⟩
  | cons m rest ih =>
      intro st O hmem hinv
      obtain ⟨hinv1, hs1, hn1, hn2, hw1, hb1⟩ :=
        process_pick_member_spec tk tn ts_side slot time ln O MS st m hside
          (hmem m (List.mem_cons_self _ _)) hinv
      obtain ⟨hinv2, hs2, hn3, hn4, hw2, hb2⟩ :=
        ih (process_pick_member tk tn ts_side slot time ln st m)
          (fun pid => O pid ++ (member_obs pid m).toList)
          (fun m' hm' => hmem m' (List.mem_cons_of_mem _ hm')) hinv1
      have hO : ∀ pid,
          ((fun pid => O pid ++ (member_obs pid m).toList) pid ++
            rest.filterMap (member_obs pid)) =
          O pid ++ (m :: rest).filterMap (member_obs pid) := by
        intro pid
        show (O pid ++ (member_obs pid m).toList) ++ rest.filterMap (member_obs pid) =
          O pid ++ (m :: rest).filterMap (member_obs pid)
        rw [List.append_assoc]
        congr 1
        cases h : member_obs pid m <;> simp [List.filterMap_cons, h]
      refine ⟨pickinv_congr hO hinv2, ?_, ?_, ?_, ?_, ?_⟩
      · rw [List.foldl_cons, hs2, hs1]
      · rw [List.foldl_cons, hn3, hn1]
      · rw [List.foldl_cons, hn4, hn2]
      · rw [List.foldl_cons, hw2, hw1]
      · rw [List.foldl_cons, hb2, hb1]

/-- One record's ban processing: everything outside `seen_bans` and the
appended Ban actions is frame, the dedup set stays duplicate-free and tracks
exactly the keys seen so far, and the log's ban content stays the image of the
dedup set. -/
theorem process_bans_spec (ts : String) (ln : Nat) :
    ∀ (bans : List BanObs) (st : ParseState),
      (process_bans ts ln st bans).player_champions = st.player_champions ∧
      (process_bans ts ln st bans).team_one_name = st.team_one_name ∧
      (process_bans ts ln st bans).team_two_name = st.team_two_name ∧
      (process_bans ts ln st bans).winning_team = st.winning_team ∧
      (∀ pid, (process_bans ts ln st bans).draft_events.countP (is_pick_for pid) =
        st.draft_events.countP (is_pick_for pid)) ∧
      (∀ p : PickEvent, DraftEvent.pick p ∈ (process_bans ts ln st bans).draft_events →
        DraftEvent.pick p ∈ st.draft_events) ∧
      (st.seen_bans.Nodup →
       st.draft_events.filterMap ban_proj = st.seen_bans.map ban_shape →
       ((process_bans ts ln st bans).seen_bans.Nodup ∧
        (∀ k, k ∈ (process_bans ts ln st bans).seen_bans ↔
          k ∈ st.seen_bans ∨ k ∈ bans.map (fun b => (b.championID, b.pickTurn, b.teamID))) ∧
        (process_bans ts ln st bans).draft_events.filterMap ban_proj =
          (process_bans ts ln st bans).seen_bans.map ban_shape)) := by
  intro bans
  induction bans with
  | nil =>
      intro st
      refine ⟨rfl, rfl, rfl, rfl, fun _ => rfl, fun _ hp => hp,
        fun hnd hev => ⟨hnd, fun k => ?_, hev⟩⟩
      show k ∈ st.seen_bans ↔ k ∈ st.seen_bans ∨
        k ∈ ([] : List BanObs).map (fun b => (b.championID, b.pickTurn, b.teamID))
      simp
  | cons b rest ih =>
      intro st
      by_cases hmem : (b.championID, b.pickTurn, b.teamID) ∈ st.seen_bans
      · have hstep : process_bans ts ln st (b :: rest) = process_bans ts ln st rest := by
          rw [process_bans, List.foldl_cons, if_pos hmem]
          rfl
        rw [hstep]
        obtain ⟨i1, i2, i3, i4, i5, i6, i7⟩ := ih st
        refine ⟨i1, i2, i3, i4, i5, i6, fun hnd hev => ?_⟩
        obtain ⟨j1, j2, j3⟩ := i7 hnd hev
        refine ⟨j1, fun k => ?_, j3⟩
        rw [j2 k]
        have hkb : k = (b.championID, b.pickTurn, b.teamID) → k ∈ st.seen_bans :=
          fun h => h ▸ hmem
        simp only [List.map_cons, List.mem_cons]
        tauto
      · have hstep : process_bans ts ln st (b :: rest) =
            process_bans ts ln
              { st with
                seen_bans := st.seen_bans ++ [(b.championID, b.pickTurn, b.teamID)],
                draft_events := st.draft_events ++ [DraftEvent.ban {
                  pickTurn := b.pickTurn,
                  champion := get_champion_name b.championID,
                  championID := b.championID,
                  team := ban_side b.teamID,
                  timestamp := ts,
                  line := ln }] } rest := by
          rw [process_bans, List.foldl_cons, if_neg hmem]
          rfl
        rw [hstep]
        obtain ⟨i1, i2, i3, i4, i5, i6, i7⟩ := ih _
        refine ⟨i1, i2, i3, i4, ?_, ?_, ?_⟩
        · intro pid
          rw [i5 pid]
          rw [List.countP_append]
          simp [is_pick_for]
        · intro p hp
          have := i6 p hp
          rcases List.mem_append.mp this with h | h
          · exact h
          · simp at h
        · intro hnd hev
          have hnd' : (st.seen_bans ++ [(b.championID, b.pickTurn, b.teamID)]).Nodup := by
            rw [List.nodup_append]
            exact ⟨hnd, List.nodup_singleton _, by simpa using hmem⟩
          have hev' : (st.draft_events ++ [DraftEvent.ban {
                pickTurn := b.pickTurn,
                champion := get_champion_name b.championID,
                championID := b.championID,
                team := ban_side b.teamID,
                timestamp := ts,
                line := ln }]).filterMap ban_proj =
              (st.seen_bans ++ [(b.championID, b.pickTurn, b.teamID)]).map ban_shape := by
            rw [List.filterMap_append, List.map_append, hev]
            simp [ban_proj, ban_shape]
          obtain ⟨j1, j2, j3⟩ := i7 hnd' hev'
          refine ⟨j1, fun k => ?_, j3⟩
          rw [j2 k]
          simp only [List.mem_append, List.mem_singleton, List.map_cons, List.mem_cons]
          tauto

theorem pickinv_process_bans (ts : String) (ln : Nat) (bans : List BanObs)
    (O : Nat → List (Nat × Nat)) (MS : List RosterMember) (st : ParseState)
    (hinv : PickInvO O MS st.draft_events st.player_champions) :
    PickInvO O MS (process_bans ts ln st bans).draft_events
      (process_bans ts ln st bans).player_champions := by
  obtain ⟨hpcfr, _, _, _, hcnt, hmem, _⟩ := process_bans_spec ts ln bans st
  obtain ⟨hcount, hpc, hfields⟩ := hinv
  refine ⟨fun pid => ?_, fun pid => ?_, fun p hp => ?_⟩
  · rw [hcnt pid]
    exact hcount pid
  · rw [hpcfr]
    exact hpc pid
  · obtain ⟨h1, h2, h3, h4, h5, h6⟩ := hfields p (hmem p hp)
    exact ⟨h1, h2, h3, h4, h5, fun hc => by rw [hpcfr]; exact h6 hc⟩

/-! Equation lemmas for `spec_slot_name` and the capture stage. -/

theorem spec_slot_name_record_cons (slot : Snapshot → Option (List RosterMember))
    (r : Snapshot) (rest : List RawLine) :
    spec_slot_name slot (RawLine.record r :: rest) =
      if processed_record r then
        match slot r with
        | some members =>
            if members ≠ [] then
              match capture_team_name members with
              | .ok (some n) => some n
              | _ => spec_slot_name slot rest
            else spec_slot_name slot rest
        | none => spec_slot_name slot rest
      else spec_slot_name slot rest := rfl

theorem capture_slot_name_some (x : String) (slot : Option (List RosterMember)) :
    capture_slot_name (some x) slot = .ok (some x) := by
  cases slot with
  | none => rfl
  | some members =>
      have hcon : ¬ (members ≠ [] ∧ (some x : Option String) = none) :=
        fun h => Option.noConfusion h.2
      rw [capture_slot_name]
      rw [if_neg hcon]

theorem capture_slot_name_spec (slot : Snapshot → Option (List RosterMember))
    (r : Snapshot) (hp : processed_record r) (n' : Option String)
    (h : capture_slot_name none (slot r) = .ok n') :
    n' = spec_slot_name slot [RawLine.record r] := by
  rw [spec_slot_name_record_cons, if_pos hp]
  cases hslot : slot r with
  | none =>
      rw [hslot] at h
      injection h with h2
      exact h2.symm
  | some members =>
      rw [hslot] at h
      rw [capture_slot_name] at h
      dsimp only
      by_cases hne : members ≠ []
      · rw [if_pos ⟨hne, rfl⟩] at h
        cases hcap : capture_team_name members with
        | error e =>
            rw [hcap] at h
            exact Except.noConfusion h
        | ok o =>
            rw [hcap] at h
            cases o with
            | none =>
                injection h with h2
                rw [if_pos hne]
                exact h2.symm
            | some n =>
                injection h with h2
                rw [if_pos hne]
                exact h2.symm
      · have hcon : ¬ (members ≠ [] ∧ (none : Option String) = none) := fun hc => hne hc.1
        rw [if_neg hcon] at h
        injection h with h2
        rw [if_neg hne]
        exact h2.symm

/-- The parse-loop invariant: after processing `lines`, the dedup set is
duplicate-free and holds exactly the observed ban keys, the log's ban content
is its image, the pick log and champion map satisfy `PickInvO` against the
stream's observations and members, and each team name is the spec's
first-capture value. -/
structure ParseInv (lines : List RawLine) (st : ParseState) : Prop where
  bans_nodup : st.seen_bans.Nodup
  bans_keys : ∀ k, k ∈ st.seen_bans ↔ k ∈ stream_ban_keys lines
  bans_events : st.draft_events.filterMap ban_proj = st.seen_bans.map ban_shape
  pickinv : PickInvO (fun pid => stream_obs lines pid) (stream_members lines)
    st.draft_events st.player_champions
  t1_name : st.team_one_name = spec_slot_name (fun r => r.teamOne) lines
  t2_name : st.team_two_name = spec_slot_name (fun r => r.teamTwo) lines

theorem ParseInv_init : ParseInv [] initState := by
  refine ⟨List.nodup_nil, fun k => by simp [stream_ban_keys, initState], rfl,
    ⟨fun pid => rfl, fun pid => rfl, fun p hp => by simp [initState] at hp⟩, rfl, rfl⟩

theorem spec_slot_name_nil (slot : Snapshot → Option (List RosterMember)) :
    spec_slot_name slot [] = none := rfl

/-! Equation lemmas for `process_record`. -/

theorem process_record_game_end (st : ParseState) (ln : Nat) (r : Snapshot)
    (h : r.rfc461Schema = some "game_end") :
    process_record st ln r = .ok { st with winning_team :=
      (if r.winningTeam = some 100 then some "teamOne"
       else if r.winningTeam = some 200 then some "teamTwo"
       else st.winning_team) } := by
  rw [process_record, if_pos h]

theorem process_record_skip (st : ParseState) (ln : Nat) (r : Snapshot)
    (h1 : ¬ r.rfc461Schema = some "game_end")
    (h2 : ¬ (r.gameState = some "CHAMP_SELECT" ∨ r.gameState = some "PRE_CHAMP_SELECT")) :
    process_record st ln r = .ok st := by
  rw [process_record, if_neg h1, if_pos h2]

/-- A line that contributes no observations, ban keys or names extends the
invariant to any state agreeing with the old one on the tracked fields. -/
theorem ParseInv_extend (lines : List RawLine) (st st' : ParseState) (l : RawLine)
    (hinv : ParseInv lines st)
    (hs : st'.seen_bans = st.seen_bans)
    (he : st'.draft_events = st.draft_events)
    (hc : st'.player_champions = st.player_champions)
    (h1 : st'.team_one_name = st.team_one_name)
    (h2 : st'.team_two_name = st.team_two_name)
    (hobs : ∀ pid, line_obs l pid = [])
    (hbk : line_ban_keys l = [])
    (hn1 : spec_slot_name (fun q => q.teamOne) [l] = none)
    (hn2 : spec_slot_name (fun q => q.teamTwo) [l] = none) :
    ParseInv (lines ++ [l]) st' := by
  obtain ⟨b1, b2, b3, pinv, t1, t2⟩ := hinv
  refine ⟨hs ▸ b1, fun k => ?_, ?_, ?_, ?_, ?_⟩
  · rw [hs, b2 k, stream_ban_keys_append]
    simp [stream_ban_keys, hbk]
  · rw [he, hs]
    exact b3
  · rw [he, hc]
    apply pickinv_congr _ (pickinv_mono _ pinv)
    · intro pid
      rw [stream_obs_append]
      simp [stream_obs, hobs]
    · intro m hm
      rw [stream_members_append]
      exact List.mem_append_left _ hm
  · rw [h1, t1, spec_slot_name_append, hn1]
    cases hx : spec_slot_name (fun q => q.teamOne) lines <;> rfl
  · rw [h2, t2, spec_slot_name_append, hn2]
    cases hx : spec_slot_name (fun q => q.teamTwo) lines <;> rfl

/-- Name captured from a record extends the running spec name to the stream
with that record appended. -/
theorem capture_new_spec (lines : List RawLine) (r : Snapshot) (hp : processed_record r)
    (slot : Snapshot → Option (List RosterMember)) (cur : Option String) (n : Option String)
    (hcur : cur = spec_slot_name slot lines)
    (hcap : capture_slot_name cur (slot r) = .ok n) :
    n = spec_slot_name slot (lines ++ [RawLine.record r]) := by
  rw [spec_slot_name_append]
  cases hspec : spec_slot_name slot lines with
  | some x =>
      rw [hcur, hspec, capture_slot_name_some] at hcap
      injection hcap with h
      exact h.symm
  | none =>
      rw [hcur, hspec] at hcap
      exact capture_slot_name_spec slot r hp n hcap

/-- The draft-phase pipeline of a processed record — name install, ban pass,
teamOne picks, teamTwo picks — carries the invariant to the appended stream,
for any timestamp and display team names. -/
theorem pipeline_inv (lines : List RawLine) (r : Snapshot) (hp : processed_record r)
    (ln : Nat) (ts t1n t2n : String) (st1 : ParseState)
    (hb1 : st1.seen_bans.Nodup)
    (hb2 : ∀ k, k ∈ st1.seen_bans ↔ k ∈ stream_ban_keys lines)
    (hb3 : st1.draft_events.filterMap ban_proj = st1.seen_bans.map ban_shape)
    (hpi : PickInvO (fun pid => stream_obs lines pid) (stream_members lines)
      st1.draft_events st1.player_champions)
    (hn1 : st1.team_one_name = spec_slot_name (fun q => q.teamOne) (lines ++ [RawLine.record r]))
    (hn2 : st1.team_two_name = spec_slot_name (fun q => q.teamTwo) (lines ++ [RawLine.record r])) :
    ParseInv (lines ++ [RawLine.record r])
      ((r.teamTwo.getD []).foldl
        (process_pick_member "teamTwo" t2n "Red" false ts ln)
        ((r.teamOne.getD []).foldl
          (process_pick_member "teamOne" t1n "Blue" true ts ln)
          (process_bans ts ln st1 r.bannedChampions))) := by
  have hmsub : ∀ m ∈ record_members r, m ∈ stream_members (lines ++ [RawLine.record r]) := by
    intro m hm
    rw [stream_members_append]
    apply List.mem_append_right
    simpa [stream_members, line_members] using hm
  have hsub1 : ∀ m ∈ r.teamOne.getD [], m ∈ stream_members (lines ++ [RawLine.record r]) :=
    fun m hm => hmsub m (List.mem_append_left _ hm)
  have hsub2 : ∀ m ∈ r.teamTwo.getD [], m ∈ stream_members (lines ++ [RawLine.record r]) :=
    fun m hm => hmsub m (List.mem_append_right _ hm)
  have p1 : PickInvO (fun pid => stream_obs lines pid)
      (stream_members (lines ++ [RawLine.record r]))
      st1.draft_events st1.player_champions := by
    apply pickinv_mono _ hpi
    intro m hm
    rw [stream_members_append]
    exact List.mem_append_left _ hm
  obtain ⟨q1, q2, q3, q4, q5, q6, q7⟩ := process_bans_spec ts ln r.bannedChampions st1
  obtain ⟨j1, j2, j3⟩ := q7 hb1 hb3
  have p2 := pickinv_process_bans ts ln r.bannedChampions _ _ st1 p1
  obtain ⟨p3, s3, n3a, n3b, w3, bb3⟩ :=
    process_team_spec "teamOne" t1n "Blue" true ts ln
      (stream_members (lines ++ [RawLine.record r])) (Or.inl ⟨rfl, rfl⟩)
      (r.teamOne.getD []) (process_bans ts ln st1 r.bannedChampions)
      (fun pid => stream_obs lines pid) hsub1 p2
  obtain ⟨p4, s4, n4a, n4b, w4, bb4⟩ :=
    process_team_spec "teamTwo" t2n "Red" false ts ln
      (stream_members (lines ++ [RawLine.record r])) (Or.inr ⟨rfl, rfl⟩)
      (r.teamTwo.getD [])
      ((r.teamOne.getD []).foldl
        (process_pick_member "teamOne" t1n "Blue" true ts ln)
        (process_bans ts ln st1 r.bannedChampions))
      (fun pid => stream_obs lines pid ++ (r.teamOne.getD []).filterMap (member_obs pid))
      hsub2 p3
  have hOfin : ∀ pid,
      (stream_obs lines pid ++ (r.teamOne.getD []).filterMap (member_obs pid))
        ++ (r.teamTwo.getD []).filterMap (member_obs pid) =
      stream_obs (lines ++ [RawLine.record r]) pid := by
    intro pid
    rw [stream_obs_append, List.append_assoc]
    congr 1
    rw [← List.filterMap_append]
    show (record_members r).filterMap (member_obs pid) = _
    simp [stream_obs, line_obs, record_obs, hp]
  refine ⟨?_, fun k => ?_, ?_, ?_, ?_, ?_⟩
  · rw [s4, s3]
    exact j1
  · rw [s4, s3, j2 k, hb2 k, stream_ban_keys_append]
    simp [stream_ban_keys, line_ban_keys, record_ban_keys, hp]
  · rw [bb4, bb3, j3, s4, s3]
  · exact pickinv_congr hOfin p4
  · rw [n4a, n3a, q2]
    exact hn1
  · rw [n4b, n3b, q3]
    exact hn2

/-- One record preserves the invariant across all three branches of
`process_record`. -/
theorem process_record_inv (lines : List RawLine) (st st' : ParseState) (ln : Nat)
    (r : Snapshot) (hinv : ParseInv lines st)
    (hok : process_record st ln r = .ok st') :
    ParseInv (lines ++ [RawLine.record r]) st' := by
  by_cases hge : r.rfc461Schema = some "game_end"
  · rw [process_record_game_end st ln r hge] at hok
    injection hok with hok
    subst hok
    have hnp : ¬ processed_record r := fun hx => hx.1 hge
    exact ParseInv_extend lines st _ (RawLine.record r) hinv rfl rfl rfl rfl rfl
      (fun pid => by simp [line_obs, record_obs, hnp])
      (by simp [line_ban_keys, record_ban_keys, hnp])
      (by rw [spec_slot_name_record_cons, if_neg hnp, spec_slot_name_nil])
      (by rw [spec_slot_name_record_cons, if_neg hnp, spec_slot_name_nil])
  by_cases hgs : r.gameState = some "CHAMP_SELECT" ∨ r.gameState = some "PRE_CHAMP_SELECT"
  case neg =>
    rw [process_record_skip st ln r hge hgs] at hok
    injection hok with hok
    subst hok
    have hnp : ¬ processed_record r := fun hx => hgs hx.2
    exact ParseInv_extend lines st _ (RawLine.record r) hinv rfl rfl rfl rfl rfl
      (fun pid => by simp [line_obs, record_obs, hnp])
      (by simp [line_ban_keys, record_ban_keys, hnp])
      (by rw [spec_slot_name_record_cons, if_neg hnp, spec_slot_name_nil])
      (by rw [spec_slot_name_record_cons, if_neg hnp, spec_slot_name_nil])
  case pos =>
    have hp : processed_record r := ⟨hge, hgs⟩
    rw [process_record, if_neg hge, if_neg (not_not_intro hgs)] at hok
    cases hcap1 : capture_slot_name st.team_one_name r.teamOne with
    | error e =>
        rw [hcap1] at hok
        exact Except.noConfusion hok
    | ok n1 =>
        rw [hcap1] at hok
        cases hcap2 : capture_slot_name st.team_two_name r.teamTwo with
        | error e =>
            rw [hcap2] at hok
            exact Except.noConfusion hok
        | ok n2 =>
            rw [hcap2] at hok
            injection hok with hok
            subst hok
            exact pipeline_inv lines r hp ln r.rfc460Timestamp _ _
              { st with team_one_name := n1, team_two_name := n2 }
              hinv.bans_nodup hinv.bans_keys hinv.bans_events hinv.pickinv
              (capture_new_spec lines r hp (fun q => q.teamOne) st.team_one_name n1
                hinv.t1_name hcap1)
              (capture_new_spec lines r hp (fun q => q.teamTwo) st.team_two_name n2
                hinv.t2_name hcap2)

/-- The stream loop preserves the invariant. -/
theorem run_lines_inv :
    ∀ (lines pre : List RawLine) (st st' : ParseState) (n : Nat),
      ParseInv pre st → run_lines st n lines = .ok st' →
      ParseInv (pre ++ lines) st' := by
  intro lines
  induction lines with
  | nil =>
      intro pre st st' n hinv hok
      injection hok with h
      subst h
      simpa using hinv
  | cons l rest ih =>
      intro pre st st' n hinv hok
      rw [run_lines] at hok
      cases hpl : process_line st n l with
      | error e =>
          rw [hpl] at hok
          exact Except.noConfusion hok
      | ok st1 =>
          rw [hpl] at hok
          have hinv1 : ParseInv (pre ++ [l]) st1 := by
            cases l with
            | badJson =>
                injection hpl with h
                subst h
                exact ParseInv_extend pre st _ RawLine.badJson hinv rfl rfl rfl rfl rfl
                  (fun pid => rfl) rfl rfl rfl
            | malformed => exact Except.noConfusion hpl
            | record r => exact process_record_inv pre st st1 n r hinv hpl
          have hres := ih (pre ++ [l]) st1 st' (n + 1) hinv1 hok
          simpa [List.append_assoc] using hres

/-- The loop from the initial state establishes the invariant for the whole
stream. -/
theorem run_lines_inv_init (lines : List RawLine) (st : ParseState)
    (hok : run_lines initState 1 lines = .ok st) : ParseInv lines st := by
  have hres := run_lines_inv lines [] initState st 1 ParseInv_init hok
  simpa using hres

/-! Final-stage lemmas: the pickTurn sort is a permutation, the role backfill
touches only roles, and the winning marker folds the game_end directives. -/

theorem insert_event_perm (e : DraftEvent) :
    ∀ l : List DraftEvent, (insert_event e l).Perm (e :: l) := by
  intro l
  induction l with
  | nil => exact List.Perm.refl _
  | cons f rest ih =>
      rw [insert_event]
      by_cases h : event_pickTurn e < event_pickTurn f
      · rw [if_pos h]
      · rw [if_neg h]
        exact (List.Perm.cons f ih).trans (List.Perm.swap e f rest)

theorem sort_foldl_perm :
    ∀ (events acc : List DraftEvent),
      (events.foldl (fun acc e => insert_event e acc) acc).Perm (acc ++ events) := by
  intro events
  induction events with
  | nil => intro acc; simp
  | cons e rest ih =>
      intro acc
      rw [List.foldl_cons]
      refine (ih (insert_event e acc)).trans ?_
      have h1 : (insert_event e acc ++ rest).Perm ((e :: acc) ++ rest) :=
        (insert_event_perm e acc).append_right rest
      refine h1.trans ?_
      show (e :: (acc ++ rest)).Perm (acc ++ e :: rest)
      exact List.perm_middle.symm

theorem sort_by_pickTurn_perm (events : List DraftEvent) :
    (sort_by_pickTurn events).Perm events := by
  have h := sort_foldl_perm events []
  simpa [sort_by_pickTurn] using h

theorem backfill_roles_countP (roles : List (Nat × String)) (tk : String) (pid : Nat)
    (events : List DraftEvent) :
    (backfill_roles roles tk events).countP (is_pick_for pid) =
      events.countP (is_pick_for pid) := by
  rw [backfill_roles, List.countP_map]
  apply List.countP_congr
  intro e he
  cases e with
  | ban b => rfl
  | pick p =>
      by_cases htk : p.team_key = tk
      · cases hl : lookupA roles p.participant_id <;> simp [Function.comp, is_pick_for, htk, hl]
      · simp [Function.comp, is_pick_for, htk]

theorem backfill_roles_filterMap_ban (roles : List (Nat × String)) (tk : String)
    (events : List DraftEvent) :
    (backfill_roles roles tk events).filterMap ban_proj = events.filterMap ban_proj := by
  rw [backfill_roles, List.filterMap_map]
  apply List.filterMap_congr
  intro e he
  cases e with
  | ban b => rfl
  | pick p =>
      by_cases htk : p.team_key = tk
      · cases hl : lookupA roles p.participant_id <;> simp [Function.comp, ban_proj, htk, hl]
      · simp [Function.comp, ban_proj, htk]

theorem backfill_roles_mem_ban (roles : List (Nat × String)) (tk : String)
    (events : List DraftEvent) (b : BanEvent) :
    DraftEvent.ban b ∈ backfill_roles roles tk events ↔ DraftEvent.ban b ∈ events := by
  rw [backfill_roles]
  constructor
  · intro h
    obtain ⟨e, he, hfe⟩ := List.mem_map.mp h
    cases e with
    | ban b2 =>
        have hb : b2 = b := by
          injection hfe with h2
        rw [← hb]
        exact he
    | pick p =>
        exfalso
        by_cases htk : p.team_key = tk
        · cases hl : lookupA roles p.participant_id <;>
            simp [htk, hl] at hfe
        · simp [htk] at hfe
  · intro h
    refine List.mem_map.mpr ⟨DraftEvent.ban b, h, rfl⟩

theorem backfill_roles_mem_pick (roles : List (Nat × String)) (tk : String)
    (events : List DraftEvent) (p : PickEvent)
    (hp : DraftEvent.pick p ∈ backfill_roles roles tk events) :
    ∃ q : PickEvent, DraftEvent.pick q ∈ events ∧
      p.participant_id = q.participant_id ∧ p.championID = q.championID ∧
      p.champion = q.champion ∧ p.pickTurn = q.pickTurn ∧ p.player = q.player ∧
      p.team_key = q.team_key ∧ p.team_side = q.team_side := by
  rw [backfill_roles] at hp
  obtain ⟨e, he, hfe⟩ := List.mem_map.mp hp
  cases e with
  | ban b => exact absurd hfe (by simp)
  | pick q =>
      refine ⟨q, he, ?_⟩
      by_cases htk : q.team_key = tk
      · cases hl : lookupA roles q.participant_id with
        | none =>
            simp only [htk, if_pos, hl] at hfe
            injection hfe with h2
            subst h2
            exact ⟨rfl, rfl, rfl, rfl, rfl, rfl, rfl⟩
        | some role =>
            simp only [htk, if_pos, hl] at hfe
            injection hfe with h2
            subst h2
            exact ⟨rfl, rfl, rfl, rfl, rfl, htk.symm, rfl⟩
      · simp only [htk, if_neg, ite_false] at hfe
        injection hfe with h2
        subst h2
        exact ⟨rfl, rfl, rfl, rfl, rfl, rfl, rfl⟩

/-- The winner directive one line contributes: a game_end record maps
winningTeam 100 to teamOne and 200 to teamTwo and otherwise leaves the marker
alone; every other line leaves it alone. -/
def line_winning (w : Option String) : RawLine → Option String
  | .record r =>
      if r.rfc461Schema = some "game_end" then
        (if r.winningTeam = some 100 then some "teamOne"
         else if r.winningTeam = some 200 then some "teamTwo"
         else w)
      else w
  | _ => w

/-- The winning marker the stream leaves behind. -/
def stream_winning (lines : List RawLine) : Option String :=
  lines.foldl line_winning none

theorem process_pick_member_winning (tk tn ts_side : String) (slot : Bool)
    (time : String) (ln : Nat) (st : ParseState) (m : RosterMember) :
    (process_pick_member tk tn ts_side slot time ln st m).winning_team =
      st.winning_team := by
  by_cases h0 : m.championID > 0
  · cases hl : lookupA st.player_champions m.participantID with
    | none =>
        exact (process_pick_member_new_proj tk tn ts_side slot time ln st m h0 hl).2.2.2.2.2
    | some prev =>
        by_cases hne : prev ≠ m.championID
        · exact (process_pick_member_swap_proj tk tn ts_side slot time ln st m h0 prev hl hne).2.2.2.2.2
        · push_neg at hne
          subst hne
          rw [process_pick_member_same_eq tk tn ts_side slot time ln st m h0 hl]
  · rw [process_pick_member_zero_eq tk tn ts_side slot time ln st m h0]

theorem foldl_pick_winning (tk tn ts_side : String) (slot : Bool)
    (time : String) (ln : Nat) :
    ∀ (members : List RosterMember) (st : ParseState),
      (members.foldl (process_pick_member tk tn ts_side slot time ln) st).winning_team =
        st.winning_team := by
  intro members
  induction members with
  | nil => intro st; rfl
  | cons m rest ih =>
      intro st
      rw [List.foldl_cons, ih, process_pick_member_winning]

theorem pipeline_winning (r : Snapshot) (ln : Nat) (ts t1n t2n : String)
    (st1 : ParseState) :
    ((r.teamTwo.getD []).foldl
      (process_pick_member "teamTwo" t2n "Red" false ts ln)
      ((r.teamOne.getD []).foldl
        (process_pick_member "teamOne" t1n "Blue" true ts ln)
        (process_bans ts ln st1 r.bannedChampions))).winning_team =
      st1.winning_team := by
  rw [foldl_pick_winning, foldl_pick_winning]
  exact (process_bans_spec ts ln r.bannedChampions st1).2.2.2.1

theorem process_record_winning (st st' : ParseState) (ln : Nat) (r : Snapshot)
    (hok : process_record st ln r = .ok st') :
    st'.winning_team = line_winning st.winning_team (RawLine.record r) := by
  by_cases hge : r.rfc461Schema = some "game_end"
  · rw [process_record_game_end st ln r hge] at hok
    injection hok with hok
    subst hok
    simp [line_winning, hge]
  by_cases hgs : r.gameState = some "CHAMP_SELECT" ∨ r.gameState = some "PRE_CHAMP_SELECT"
  case neg =>
    rw [process_record_skip st ln r hge hgs] at hok
    injection hok with hok
    subst hok
    simp [line_winning, hge]
  case pos =>
    rw [process_record, if_neg hge, if_neg (not_not_intro hgs)] at hok
    cases hcap1 : capture_slot_name st.team_one_name r.teamOne with
    | error e =>
        rw [hcap1] at hok
        exact Except.noConfusion hok
    | ok n1 =>
        rw [hcap1] at hok
        cases hcap2 : capture_slot_name st.team_two_name r.teamTwo with
        | error e =>
            rw [hcap2] at hok
            exact Except.noConfusion hok
        | ok n2 =>
            rw [hcap2] at hok
            injection hok with hok
            subst hok
            exact (pipeline_winning r ln r.rfc460Timestamp _ _
              { st with team_one_name := n1, team_two_name := n2 }).trans
              (by simp [line_winning, hge])

theorem run_lines_winning :
    ∀ (lines : List RawLine) (st st' : ParseState) (n : Nat),
      run_lines st n lines = .ok st' →
      st'.winning_team = lines.foldl line_winning st.winning_team := by
  intro lines
  induction lines with
  | nil =>
      intro st st' n hok
      injection hok with h
      subst h
      rfl
  | cons l rest ih =>
      intro st st' n hok
      rw [run_lines] at hok
      cases hpl : process_line st n l with
      | error e =>
          rw [hpl] at hok
          exact Except.noConfusion hok
      | ok st1 =>
          rw [hpl] at hok
          have h1 : st1.winning_team = line_winning st.winning_team l := by
            cases l with
            | badJson =>
                injection hpl with h
                subst h
                rfl
            | malformed => exact Except.noConfusion hpl
            | record r => exact process_record_winning st st1 n r hpl
          rw [List.foldl_cons, ← h1]
          exact ih st1 st' (n + 1) hok

/-- A JSON-decodable line that is not a record object aborts the whole parse:
whatever the surrounding lines do, the loop returns the failure value. -/
theorem run_lines_malformed :
    ∀ (l1 : List RawLine) (st : ParseState) (n : Nat) (l2 : List RawLine),
      run_lines st n (l1 ++ RawLine.malformed :: l2) = .error () := by
  intro l1
  induction l1 with
  | nil => intro st n l2; rfl
  | cons l rest ih =>
      intro st n l2
      rw [List.cons_append, run_lines]
      cases hpl : process_line st n l with
      | error e => cases e; rfl
      | ok st1 => exact ih st1 (n + 1) l2

/-- Decomposition of a successful `extract_draft_from_file` run: the assembled
record's event log is the loop's log up to role backfill and a pickTurn-stable
permutation, and the name and winner fields read the loop state directly. -/
theorem extract_ok_facts (roleData : List (String × List String))
    (lines : List RawLine) (res : DraftResult)
    (hok : extract_draft_from_file roleData lines = some res) :
    ∃ st : ParseState, run_lines initState 1 lines = .ok st ∧
      (∀ pid, res.events.countP (is_pick_for pid) =
        st.draft_events.countP (is_pick_for pid)) ∧
      (∀ b : BanEvent, DraftEvent.ban b ∈ res.events ↔
        DraftEvent.ban b ∈ st.draft_events) ∧
      (∀ p : PickEvent, DraftEvent.pick p ∈ res.events →
        ∃ q : PickEvent, DraftEvent.pick q ∈ st.draft_events ∧
          p.participant_id = q.participant_id ∧ p.championID = q.championID ∧
          p.champion = q.champion ∧ p.pickTurn = q.pickTurn ∧ p.player = q.player ∧
          p.team_key = q.team_key ∧ p.team_side = q.team_side) ∧
      (res.events.filterMap ban_proj).Perm (st.draft_events.filterMap ban_proj) ∧
      res.team1.name = st.team_one_name.getD "Team1" ∧
      res.team2.name = st.team_two_name.getD "Team2" ∧
      res.winner = (match st.winning_team with
        | some wt =>
            if wt = "teamOne" then some (st.team_one_name.getD "Blue Team")
            else if wt = "teamTwo" then some (st.team_two_name.getD "Red Team")
            else none
        | none => none) := by
  rw [extract_draft_from_file] at hok
  cases hrun : run_lines initState 1 lines with
  | error e =>
      rw [hrun] at hok
      exact Option.noConfusion hok
  | ok st =>
      rw [hrun] at hok
      injection hok with hok
      subst hok
      refine ⟨st, rfl, ?_⟩
      have hev1 :
          ∀ (tk : String) (roles : List (Nat × String)) (cond : Prop) [Decidable cond]
            (ev : List DraftEvent),
            (∀ pid, (if cond then backfill_roles roles tk ev else ev).countP (is_pick_for pid) =
              ev.countP (is_pick_for pid)) ∧
            (∀ b : BanEvent, DraftEvent.ban b ∈ (if cond then backfill_roles roles tk ev else ev) ↔
              DraftEvent.ban b ∈ ev) ∧
            (∀ p : PickEvent, DraftEvent.pick p ∈ (if cond then backfill_roles roles tk ev else ev) →
              ∃ q : PickEvent, DraftEvent.pick q ∈ ev ∧
                p.participant_id = q.participant_id ∧ p.championID = q.championID ∧
                p.champion = q.champion ∧ p.pickTurn = q.pickTurn ∧ p.player = q.player ∧
                p.team_key = q.team_key ∧ p.team_side = q.team_side) ∧
            (if cond then backfill_roles roles tk ev else ev).filterMap ban_proj =
              ev.filterMap ban_proj := by
        intro tk roles cond hdec ev
        by_cases hc : cond
        · rw [if_pos hc]
          exact ⟨fun pid => backfill_roles_countP roles tk pid ev,
            fun b => backfill_roles_mem_ban roles tk ev b,
            fun p hp => backfill_roles_mem_pick roles tk ev p hp,
            backfill_roles_filterMap_ban roles tk ev⟩
        · rw [if_neg hc]
          exact ⟨fun pid => rfl, fun b => Iff.rfl,
            fun p hp => ⟨p, hp, rfl, rfl, rfl, rfl, rfl, rfl, rfl⟩, rfl⟩
      obtain ⟨c1, m1, k1, f1⟩ := hev1 "teamOne"
        (assign_team_roles roleData (st.team_one_composition.map (fun p => (p.1, p.2.1, p.2.2))))
        (st.team_one_composition ≠ []) st.draft_events
      obtain ⟨c2, m2, k2, f2⟩ := hev1 "teamTwo"
        (assign_team_roles roleData (st.team_two_composition.map (fun p => (p.1, p.2.1, p.2.2))))
        (st.team_two_composition ≠ [])
        (if st.team_one_composition ≠ [] then
          backfill_roles
            (assign_team_roles roleData (st.team_one_composition.map (fun p => (p.1, p.2.1, p.2.2))))
            "teamOne" st.draft_events
         else st.draft_events)
      have hperm := sort_by_pickTurn_perm
        (if st.team_two_composition ≠ [] then
          backfill_roles
            (assign_team_roles roleData (st.team_two_composition.map (fun p => (p.1, p.2.1, p.2.2))))
            "teamTwo"
            (if st.team_one_composition ≠ [] then
              backfill_roles
                (assign_team_roles roleData (st.team_one_composition.map (fun p => (p.1, p.2.1, p.2.2))))
                "teamOne" st.draft_events
             else st.draft_events)
         else
          (if st.team_one_composition ≠ [] then
            backfill_roles
              (assign_team_roles roleData (st.team_one_composition.map (fun p => (p.1, p.2.1, p.2.2))))
              "teamOne" st.draft_events
           else st.draft_events))
      refine ⟨fun pid => ?_, fun b => ?_, fun p hp => ?_, ?_, rfl, rfl, rfl⟩
      · rw [hperm.countP_eq, c2, c1]
      · rw [hperm.mem_iff, m2 b, m1 b]
      · rw [hperm.mem_iff] at hp
        obtain ⟨q2, hq2, e1, e2, e3, e4, e5, e6, e7⟩ := k2 p hp
        obtain ⟨q1, hq1, g1, g2, g3, g4, g5, g6, g7⟩ := k1 q2 hq2
        exact ⟨q1, hq1, e1.trans g1, e2.trans g2, e3.trans g3, e4.trans g4,
          e5.trans g5, e6.trans g6, e7.trans g7⟩
      · refine (hperm.filterMap ban_proj).trans ?_
        rw [f2, f1]

/-! Concrete streams for the parser claims. -/

/-- Two participants of one roster sharing the display name "X"; the second
record re-observes participant 2 with a different champion. -/
def cex1_lines : List RawLine :=
  [RawLine.record ⟨none, none, some "CHAMP_SELECT", "t1", [],
      some [⟨1, 14, 1, "X"⟩, ⟨2, 266, 2, "X"⟩], none⟩,
   RawLine.record ⟨none, none, some "CHAMP_SELECT", "t2", [],
      some [⟨2, 114, 2, "X"⟩], none⟩]

/-- A champion swap for participant 1 under a collision-free display name. -/
def cex1b_lines : List RawLine :=
  [RawLine.record ⟨none, none, some "CHAMP_SELECT", "t1", [],
      some [⟨1, 14, 1, "A"⟩], none⟩,
   RawLine.record ⟨none, none, some "CHAMP_SELECT", "t2", [],
      some [⟨1, 114, 1, "A"⟩], none⟩]

/-- The assembled result of `cex1b_lines`. -/
def cex1b_res : DraftResult :=
  { events := [DraftEvent.pick
      { pickTurn := 1, champion := "Fiora", championID := 114, player := "A",
        team := "TeamOne", team_key := "teamOne", team_side := "Blue",
        participant_id := 1, role := "top", timestamp := "t2", line := 2 }],
    blue_bans := [], red_bans := [],
    team1 := { name := "Team1", picks := [("A", "Fiora", "top")] },
    team2 := { name := "Team2", picks := [] },
    winner := none }

/-- A draft snapshot naming the second team "RED". -/
def cex5_draft : Snapshot :=
  ⟨none, none, some "CHAMP_SELECT", "", [], none, some [⟨6, 0, 0, "RED Player"⟩]⟩

/-- A game_end record with the given winningTeam value. -/
def cex5_end (w : Option Nat) : Snapshot :=
  ⟨some "game_end", w, none, "", [], none, none⟩

/-- The state after one game_end record with winningTeam 100. -/
def cex5_state : ParseState := { initState with winning_team := some "teamOne" }

/-- One snapshot with a ban on each side and a pick in each roster slot. -/
def cex6_rec : Snapshot :=
  ⟨none, none, some "CHAMP_SELECT", "", [⟨14, 1, 100⟩, ⟨266, 2, 200⟩],
    some [⟨1, 114, 3, "A"⟩], some [⟨6, 92, 4, "B"⟩]⟩

/-- The assembled result of `[cex6_rec]`. -/
def cex6_res : DraftResult :=
  { events := [
      DraftEvent.ban
        { pickTurn := 1, champion := "Sion", championID := 14,
          team := "Blue", timestamp := "", line := 1 },
      DraftEvent.ban
        { pickTurn := 2, champion := "Aatrox", championID := 266,
          team := "Red", timestamp := "", line := 1 },
      DraftEvent.pick
        { pickTurn := 3, champion := "Fiora", championID := 114,
          player := "A", team := "TeamOne", team_key := "teamOne", team_side := "Blue",
          participant_id := 1, role := "top", timestamp := "", line := 1 },
      DraftEvent.pick
        { pickTurn := 4, champion := "Riven", championID := 92,
          player := "B", team := "TeamTwo", team_key := "teamTwo", team_side := "Red",
          participant_id := 6, role := "top", timestamp := "", line := 1 }],
    blue_bans := ["Sion"], red_bans := ["Aatrox"],
    team1 := { name := "Team1", picks := [("A", "Fiora", "top")] },
    team2 := { name := "Team2", picks := [("B", "Riven", "top")] },
    winner := none }

/-- One snapshot repeating a ban observation under an identical key. -/
def cex8_rec : Snapshot :=
  ⟨none, none, some "CHAMP_SELECT", "", [⟨14, 1, 100⟩, ⟨14, 1, 100⟩, ⟨266, 2, 200⟩],
    none, none⟩

/-- The assembled result of `[cex8_rec]`: one Ban action per distinct key. -/
def cex8_res : DraftResult :=
  { events := [
      DraftEvent.ban
        { pickTurn := 1, champion := "Sion", championID := 14,
          team := "Blue", timestamp := "", line := 1 },
      DraftEvent.ban
        { pickTurn := 2, champion := "Aatrox", championID := 266,
          team := "Red", timestamp := "", line := 1 }],
    blue_bans := ["Sion"], red_bans := ["Aatrox"],
    team1 := { name := "Team1", picks := [] },
    team2 := { name := "Team2", picks := [] },
    winner := none }

/-- Two snapshots whose teamOne rosters carry space-containing display names
"T1 Top" then "T9 Other": the first capture wins and is frozen. -/
def cex9_lines : List RawLine :=
  [RawLine.record ⟨none, none, some "CHAMP_SELECT", "", [], some [⟨1, 0, 0, "T1 Top"⟩], none⟩,
   RawLine.record ⟨none, none, some "CHAMP_SELECT", "", [], some [⟨1, 0, 0, "T9 Other"⟩], none⟩]

/-- The state after `cex9_lines`. -/
def cex9_state : ParseState := { initState with team_one_name := some "T1" }

/-- A processed snapshot whose teamOne roster is non-empty but whose only
display name contains no space: the original claim predicts a capture. -/
def cex9_rec : Snapshot :=
  ⟨none, none, some "CHAMP_SELECT", "", [], some [⟨1, 0, 0, "NOSPACE"⟩], none⟩

instance (ms : List RosterMember) : Decidable (members_consistent ms) := by
  unfold members_consistent
  infer_instance

instance (lines : List RawLine) : Decidable (names_consistent lines) := by
  unfold names_consistent
  infer_instance

/-- C1: in every successfully parsed stream whose display names identify
participants consistently, a participant observed at least once (championId
positive) has exactly one Pick action in the assembled log; its final champion
is the last observed championId, its displayed name is derived from that id,
and its pickTurn — the key the final sort orders by — is the first
observation's pickTurn, not a later swap's.  The consistency hypothesis is
needed: the swap scan locates the action to mutate by display name, not by
participantId (see the counterexample). -/
theorem claim1_swap_in_place (roleData : List (String × List String))
    (lines : List RawLine) (res : DraftResult)
    (hok : extract_draft_from_file roleData lines = some res)
    (hnc : names_consistent lines) (pid : Nat)
    (hobs : stream_obs lines pid ≠ []) :
    res.events.countP (is_pick_for pid) = 1 ∧
    ∀ p : PickEvent, DraftEvent.pick p ∈ res.events → p.participant_id = pid →
      some p.championID = ((stream_obs lines pid).map Prod.fst).getLast? ∧
      p.champion = get_champion_name p.championID ∧
      some p.pickTurn = ((stream_obs lines pid).head?).map Prod.snd := by
  obtain ⟨st, hrun, hcount, hban, hpick, hfm, hn1, hn2, hw⟩ :=
    extract_ok_facts roleData lines res hok
  obtain ⟨icount, ipc, ifields⟩ := (run_lines_inv_init lines st hrun).pickinv
  constructor
  · rw [hcount pid, icount pid, if_neg hobs]
  · intro p hp hpid
    obtain ⟨q, hq, e1, e2, e3, e4, e5, e6, e7⟩ := hpick p hp
    obtain ⟨f1, f2, f3, f4, f5, f6⟩ := ifields q hq
    have hqpid : q.participant_id = pid := e1.symm.trans hpid
    refine ⟨?_, ?_, ?_⟩
    · have hlast := ipc pid
      have hcons := f6 hnc
      rw [hqpid] at hcons
      rw [e2, ← hcons, hlast]
    · rw [e3, e2]
      exact f3
    · rw [hqpid] at f1
      rw [e4]
      exact f1.symm

/-- C1 counterexample: with two roster members sharing the display name "X",
the swap for participant 2 (observed 266 then 114) mutates participant 1's
action instead — the unique Pick action of participant 2 keeps champion 266,
and participant 1's action carries champion 114 although participant 1 was
only ever observed with 14. -/
theorem claim1_counterexample :
    stream_obs cex1_lines 2 = [(266, 2), (114, 2)] ∧
    stream_obs cex1_lines 1 = [(14, 1)] ∧
    (∀ res, extract_draft_from_file [] cex1_lines = some res →
      res.events.countP (is_pick_for 2) = 1) ∧
    (extract_draft_from_file [] cex1_lines).map (fun res =>
      res.events.filterMap (fun e =>
        match e with
        | DraftEvent.pick p => some (p.participant_id, p.championID)
        | _ => none)) = some [(1, 114), (2, 266)] := by
  refine ⟨by decide, by decide, ?_, by decide⟩
  intro res hres
  have hres2 : (extract_draft_from_file [] cex1_lines).map
      (fun r => r.events.countP (is_pick_for 2)) = some 1 := by decide
  rw [hres] at hres2
  injection hres2

/-- C1 witness: the collision-free swap stream `cex1b_lines`. -/
theorem claim1_witness :
    extract_draft_from_file [] cex1b_lines = some cex1b_res ∧
    names_consistent cex1b_lines ∧
    stream_obs cex1b_lines 1 ≠ [] ∧
    (cex1b_res.events.countP (is_pick_for 1) = 1 ∧
     ∀ p : PickEvent, DraftEvent.pick p ∈ cex1b_res.events → p.participant_id = 1 →
       some p.championID = ((stream_obs cex1b_lines 1).map Prod.fst).getLast? ∧
       p.champion = get_champion_name p.championID ∧
       some p.pickTurn = ((stream_obs cex1b_lines 1).head?).map Prod.snd) :=
  ⟨by decide, by decide, by decide,
    claim1_swap_in_place [] cex1b_lines cex1b_res (by decide) (by decide) 1 (by decide)⟩

/-- C3: a line that fails to decode is skipped — processing continues on the
very next line with the state untouched — but the claim's failure condition is
wrong: a JSON-decodable line that is not a record object aborts the whole
parse (the per-line handler catches only decode failures), so failure is not
limited to stream-level I/O errors. -/
theorem claim3_decode_failures (roleData : List (String × List String))
    (l1 l2 : List RawLine) :
    (∀ (st : ParseState) (n : Nat) (rest : List RawLine),
      run_lines st n (RawLine.badJson :: rest) = run_lines st (n + 1) rest) ∧
    extract_draft_from_file roleData (l1 ++ RawLine.malformed :: l2) = none := by
  refine ⟨fun st n rest => rfl, ?_⟩
  rw [extract_draft_from_file, run_lines_malformed]

/-- C3 counterexample: an undecodable line alone still yields a normal result,
while a decodable non-record line turns the whole parse into the failure
value. -/
theorem claim3_counterexample :
    extract_draft_from_file [] [RawLine.badJson] =
      some { events := [], blue_bans := [], red_bans := [],
             team1 := { name := "Team1", picks := [] },
             team2 := { name := "Team2", picks := [] },
             winner := none } ∧
    extract_draft_from_file [] [RawLine.malformed] = none := by
  exact ⟨by decide, by decide⟩

/-- C5: the final winning marker of every successfully parsed stream is the
left fold of the game_end directives (100 maps to teamOne, 200 to teamTwo, and
any other value leaves the marker unchanged — not teamTwo as claimed), taken
regardless of the record's gameState; and a game_end record changes nothing
but the marker. -/
theorem claim5_game_end_winner (lines : List RawLine) (st : ParseState)
    (hok : run_lines initState 1 lines = .ok st) (ln : Nat) (r : Snapshot)
    (hge : r.rfc461Schema = some "game_end") :
    st.winning_team = stream_winning lines ∧
    process_record st ln r = .ok { st with winning_team :=
      (if r.winningTeam = some 100 then some "teamOne"
       else if r.winningTeam = some 200 then some "teamTwo"
       else st.winning_team) } :=
  ⟨run_lines_winning lines initState st 1 hok, process_record_game_end st ln r hge⟩

/-- C5 counterexample: with the second team named "RED", winningTeam 200
reports winner "RED" (the claim's scenario), but winningTeam 300 reports no
winner at all instead of the claimed TeamTwo. -/
theorem claim5_counterexample :
    (extract_draft_from_file []
        [RawLine.record cex5_draft, RawLine.record (cex5_end (some 200))]).map
      (fun res => res.winner) = some (some "RED") ∧
    (extract_draft_from_file []
        [RawLine.record cex5_draft, RawLine.record (cex5_end (some 300))]).map
      (fun res => res.winner) = some none := by
  exact ⟨by decide, by decide⟩

deriving instance DecidableEq for Except

/-- C5 witness: one game_end(100) record, then a game_end(300) directive. -/
theorem claim5_witness :
    run_lines initState 1 [RawLine.record (cex5_end (some 100))] = .ok cex5_state ∧
    (cex5_end (some 300)).rfc461Schema = some "game_end" ∧
    (cex5_state.winning_team = stream_winning [RawLine.record (cex5_end (some 100))] ∧
     process_record cex5_state 2 (cex5_end (some 300)) = .ok { cex5_state with winning_team :=
       (if (cex5_end (some 300)).winningTeam = some 100 then some "teamOne"
        else if (cex5_end (some 300)).winningTeam = some 200 then some "teamTwo"
        else cex5_state.winning_team) }) :=
  ⟨by decide, by decide,
    claim5_game_end_winner [RawLine.record (cex5_end (some 100))] cex5_state
      (by decide) 2 (cex5_end (some 300)) (by decide)⟩

/-- C6: in every successfully parsed stream, a Ban action's side comes from
its observation's teamID — 100 is Blue, anything else Red — but a Pick
action's side comes from the roster slot that carried it: teamOne is Blue and
teamTwo is Red, with no teamID involved (the code never reads one for picks). -/
theorem claim6_side_mapping (roleData : List (String × List String))
    (lines : List RawLine) (res : DraftResult)
    (hok : extract_draft_from_file roleData lines = some res) :
    (∀ b : BanEvent, DraftEvent.ban b ∈ res.events →
      ∃ k ∈ stream_ban_keys lines, b.championID = k.1 ∧ b.pickTurn = k.2.1 ∧
        b.team = (if k.2.2 = 100 then "Blue" else "Red")) ∧
    (∀ p : PickEvent, DraftEvent.pick p ∈ res.events →
      (p.team_key = "teamOne" ∨ p.team_key = "teamTwo") ∧
      p.team_side = (if p.team_key = "teamOne" then "Blue" else "Red")) := by
  obtain ⟨st, hrun, hcount, hban, hpick, hfm, hn1, hn2, hw⟩ :=
    extract_ok_facts roleData lines res hok
  have hinv := run_lines_inv_init lines st hrun
  obtain ⟨icount, ipc, ifields⟩ := hinv.pickinv
  constructor
  · intro b hb
    have hbst : DraftEvent.ban b ∈ st.draft_events := (hban b).mp hb
    have hmem : (b.championID, b.pickTurn, b.team) ∈ st.draft_events.filterMap ban_proj :=
      List.mem_filterMap.mpr ⟨DraftEvent.ban b, hbst, rfl⟩
    rw [hinv.bans_events] at hmem
    obtain ⟨k, hk, hkeq⟩ := List.mem_map.mp hmem
    have h1 : k.1 = b.championID := congrArg Prod.fst hkeq
    have h2 : k.2.1 = b.pickTurn := congrArg (fun x => x.2.1) hkeq
    have h3 : ban_side k.2.2 = b.team := congrArg (fun x => x.2.2) hkeq
    exact ⟨k, (hinv.bans_keys k).mp hk, h1.symm, h2.symm, h3.symm⟩
  · intro p hp
    obtain ⟨q, hq, e1, e2, e3, e4, e5, e6, e7⟩ := hpick p hp
    obtain ⟨f1, f2, f3, f4, f5, f6⟩ := ifields q hq
    refine ⟨?_, ?_⟩
    · rw [e6]
      exact f5
    · rw [e7, e6]
      exact f4

/-- C6 witness: one snapshot with a ban on each side and a pick in each
roster slot. -/
theorem claim6_witness :
    extract_draft_from_file [] [RawLine.record cex6_rec] = some cex6_res ∧
    ((∀ b : BanEvent, DraftEvent.ban b ∈ cex6_res.events →
      ∃ k ∈ stream_ban_keys [RawLine.record cex6_rec], b.championID = k.1 ∧ b.pickTurn = k.2.1 ∧
        b.team = (if k.2.2 = 100 then "Blue" else "Red")) ∧
     (∀ p : PickEvent, DraftEvent.pick p ∈ cex6_res.events →
      (p.team_key = "teamOne" ∨ p.team_key = "teamTwo") ∧
      p.team_side = (if p.team_key = "teamOne" then "Blue" else "Red"))) :=
  ⟨by decide, claim6_side_mapping [] [RawLine.record cex6_rec] cex6_res (by decide)⟩

/-- C8: in every successfully parsed stream the Ban actions' contents are, up
to the final pickTurn sort, exactly the images of the deduplicated
(championId, pickTurn, teamId) key sequence — an identical key observed any
number of times yields exactly one Ban action, and a key already seen is
never re-emitted. -/
theorem claim8_ban_dedup (roleData : List (String × List String))
    (lines : List RawLine) (res : DraftResult)
    (hok : extract_draft_from_file roleData lines = some res) :
    (res.events.filterMap ban_proj).Perm
      (((stream_ban_keys lines).dedup).map ban_shape) := by
  obtain ⟨st, hrun, hcount, hban, hpick, hfm, hn1, hn2, hw⟩ :=
    extract_ok_facts roleData lines res hok
  have hinv := run_lines_inv_init lines st hrun
  refine hfm.trans ?_
  rw [hinv.bans_events]
  apply List.Perm.map
  rw [List.perm_ext_iff_of_nodup hinv.bans_nodup (List.nodup_dedup _)]
  intro k
  rw [List.mem_dedup]
  exact hinv.bans_keys k

/-- C8 witness: a key repeated twice in one snapshot yields one Ban action. -/
theorem claim8_witness :
    extract_draft_from_file [] [RawLine.record cex8_rec] = some cex8_res ∧
    (cex8_res.events.filterMap ban_proj).Perm
      (((stream_ban_keys [RawLine.record cex8_rec]).dedup).map ban_shape) :=
  ⟨by decide, claim8_ban_dedup [] [RawLine.record cex8_rec] cex8_res (by decide)⟩

/-- C9: each slot's captured team name is the first whitespace token of the
first space-containing display name carried by that slot across the processed
records — not merely the first non-empty roster — and once some name is
captured no later snapshot changes it. -/
theorem claim9_team_names (lines more : List RawLine) (st : ParseState)
    (hok : run_lines initState 1 lines = .ok st) :
    st.team_one_name = spec_slot_name (fun q => q.teamOne) lines ∧
    st.team_two_name = spec_slot_name (fun q => q.teamTwo) lines ∧
    (∀ n, spec_slot_name (fun q => q.teamOne) lines = some n →
      spec_slot_name (fun q => q.teamOne) (lines ++ more) = some n) ∧
    (∀ n, spec_slot_name (fun q => q.teamTwo) lines = some n →
      spec_slot_name (fun q => q.teamTwo) (lines ++ more) = some n) := by
  have hinv := run_lines_inv_init lines st hok
  refine ⟨hinv.t1_name, hinv.t2_name, fun n hn => ?_, fun n hn => ?_⟩
  · rw [spec_slot_name_append, hn]
  · rw [spec_slot_name_append, hn]

/-- C9 counterexample: a processed snapshot with a non-empty teamOne roster
captures nothing when no display name contains a space, refuting capture "the
first time the slot carries a non-empty member list". -/
theorem claim9_counterexample :
    cex9_rec.teamOne.getD [] ≠ [] ∧
    processed_record cex9_rec ∧
    run_lines initState 1 [RawLine.record cex9_rec] = .ok initState ∧
    initState.team_one_name = none := by
  exact ⟨by decide, by decide, by decide, rfl⟩

/-- C9 witness: "T1 Top" then "T9 Other" — the first capture survives. -/
theorem claim9_witness :
    run_lines initState 1 cex9_lines = .ok cex9_state ∧
    cex9_state.team_one_name = some "T1" ∧
    (cex9_state.team_one_name = spec_slot_name (fun q => q.teamOne) cex9_lines ∧
     cex9_state.team_two_name = spec_slot_name (fun q => q.teamTwo) cex9_lines ∧
     (∀ n, spec_slot_name (fun q => q.teamOne) cex9_lines = some n →
       spec_slot_name (fun q => q.teamOne) (cex9_lines ++ [RawLine.badJson]) = some n) ∧
     (∀ n, spec_slot_name (fun q => q.teamTwo) cex9_lines = some n →
       spec_slot_name (fun q => q.teamTwo) (cex9_lines ++ [RawLine.badJson]) = some n)) :=
  ⟨by decide, by decide,
    claim9_team_names cex9_lines [RawLine.badJson] cex9_state (by decide)⟩

/-- One identical member observation placed in the teamOne roster slot. -/
def cex6b_one : Snapshot :=
  ⟨none, none, some "CHAMP_SELECT", "", [], some [⟨1, 14, 1, "A"⟩], none⟩

/-- The same member observation placed in the teamTwo roster slot. -/
def cex6b_two : Snapshot :=
  ⟨none, none, some "CHAMP_SELECT", "", [], none, some [⟨1, 14, 1, "A"⟩]⟩

/-- C6 counterexample: the very same pick observation is reported Blue from
the teamOne slot and Red from the teamTwo slot, so a pick's side does depend
on the roster slot (no teamId of the observation is consulted at all). -/
theorem claim6_counterexample :
    (extract_draft_from_file [] [RawLine.record cex6b_one]).map (fun res =>
      res.events.filterMap (fun e =>
        match e with
        | DraftEvent.pick p => some p.team_side
        | _ => none)) = some ["Blue"] ∧
    (extract_draft_from_file [] [RawLine.record cex6b_two]).map (fun res =>
      res.events.filterMap (fun e =>
        match e with
        | DraftEvent.pick p => some p.team_side
        | _ => none)) = some ["Red"] := by
  exact ⟨by decide, by decide⟩
